import Mathlib

/-!
Verification development for the emo-insight backend.

The Python sources are shallowly embedded: JSON-like dynamic values become the
inductive `JValue`; Python code that can raise becomes `Except String`
computations, and a `try`/`except` block becomes a `match` on that result;
floats become exact rationals; `int()` becomes truncation toward zero; dicts
become association lists.  Each embedded definition keeps the name of the
source function it models.
-/

namespace EmoInsight

/-- JSON-like Python values flowing through the Hume result pipeline. -/
inductive JValue where
  | null
  | boolean (b : Bool)
  | num (q : ℚ)
  | str (s : String)
  | arr (xs : List JValue)
  | obj (fields : List (String × JValue))

/-- Python truthiness of a value (`if x:`). -/
def JValue.truthy : JValue → Bool
  | .null => false
  | .boolean b => b
  | .num q => q != 0
  | .str s => s != ""
  | .arr xs => !xs.isEmpty
  | .obj fs => !fs.isEmpty

/-- Python `x.get(k, d)`: raises `AttributeError` when `x` is not a dict. -/
def jget (j : JValue) (k : String) (d : JValue) : Except String JValue :=
  match j with
  | .obj fs => .ok ((fs.lookup k).getD d)
  | _ => .error "AttributeError"

/-- Iterating a value in a `for` loop.  Only lists iterate in this model; every
non-list that reaches a loop in the embedded code is either falsy (and was
already replaced by `[]` by an `or []` / `isinstance` guard before the loop) or
leads Python to raise on the first element (`.get` on a string key or character,
or `TypeError` on a non-iterable), so the observable outcome — an exception
reaching the enclosing handler — agrees. -/
def jelems (j : JValue) : Except String (List JValue) :=
  match j with
  | .arr xs => .ok xs
  | _ => .error "TypeError"

/-- Python `len(x)`: defined for lists, strings and dicts, raises otherwise. -/
def jlen (j : JValue) : Except String Nat :=
  match j with
  | .arr xs => .ok xs.length
  | .str s => .ok s.length
  | .obj fs => .ok fs.length
  | _ => .error "TypeError"

/-- Python `int(q)` on a real number: truncation toward zero. -/
def pyInt (q : ℚ) : ℤ := if 0 ≤ q then ⌊q⌋ else ⌈q⌉

/-- Python `round` ties-to-even on an exact rational (floats are modelled as
exact rationals throughout). -/
def roundHalfEven (q : ℚ) : ℤ :=
  if q - ⌊q⌋ < 1/2 then ⌊q⌋
  else if q - ⌊q⌋ = 1/2 then (if 2 ∣ ⌊q⌋ then ⌊q⌋ else ⌊q⌋ + 1)
  else ⌊q⌋ + 1

/-- Python `round(q, 6)` as used on emotion scores. -/
def pyRound6 (q : ℚ) : ℚ := (roundHalfEven (q * 1000000) : ℚ) / 1000000

/-- Inserts `x` after every element `y` with `le y x`: the insertion step of a
stable ascending sort. -/
def stableInsert (le : α → α → Bool) (x : α) : List α → List α
  | [] => [x]
  | y :: ys => if le y x then y :: stableInsert le x ys else x :: y :: ys

/-- A stable ascending sort by `le`, agreeing with Python `list.sort(key=...)`:
elements whose keys compare equal keep their original relative order.  (Python
`reverse=True` is this sort with the flipped comparison.) -/
def stableSort (le : α → α → Bool) (l : List α) : List α :=
  l.foldl (fun acc x => stableInsert le x acc) []

/-- Python `str.strip()` (whitespace at both ends). -/
def pyStrip (s : String) : String :=
  String.mk (((s.toList.dropWhile Char.isWhitespace).reverse.dropWhile
    Char.isWhitespace).reverse)

/-- Lexicographic strict comparison of strings by code point, as Python
compares strings. -/
def pyStrLt : List Char → List Char → Bool
  | [], [] => false
  | [], _ :: _ => true
  | _ :: _, [] => false
  | a :: as, b :: bs => if a < b then true else if b < a then false else pyStrLt as bs

/-! ## hume/hume_summarize.py -/

/-- Embeds `_get_grouped_predictions`: safely extract `grouped_predictions` for
a model key, returning `[]` when predictions are missing, empty, or any lookup
raises; a falsy stored value is replaced by `[]` (the `or []`), a truthy
non-list is returned as-is (the callers then fail to iterate it). -/
def get_grouped_predictions (hume_obj : JValue) (model : String) : JValue :=
  let attempt : Except String JValue := do
    let results ← jget hume_obj "results" (.obj [])
    let preds ← jget results "predictions" (.arr [])
    match preds with
    | .arr [] => pure (.arr [])
    | .arr (p0 :: _) => do
        let models ← jget p0 "models" (.obj [])
        let modelVal ← jget models model (.obj [])
        let gp ← jget modelVal "grouped_predictions" (.arr [])
        pure (if gp.truthy then gp else .arr [])
    | _ => pure (.arr [])
  match attempt with
  | .ok v => v
  | .error _ => .arr []

/-- One prosody text segment as yielded by `_iter_prosody_text_segments`. -/
structure Seg where
  text : JValue
  beginT : JValue
  endT : JValue
  confidence : JValue

/-- Embeds `_iter_prosody_text_segments` (run to completion, as the list
comprehension in `extract_transcript_from_prosody` does). -/
def iter_prosody_text_segments (hume_obj : JValue) : Except String (List Seg) := do
  let groups ← jelems (get_grouped_predictions hume_obj "prosody")
  let segLists ← groups.mapM (fun group => do
    let predsVal ← jget group "predictions" (.arr [])
    let preds ← jelems (if predsVal.truthy then predsVal else .arr [])
    preds.mapM (fun p => do
      let text ← jget p "text" .null
      let timeVal1 ← jget p "time" .null
      let b ← jget (if timeVal1.truthy then timeVal1 else .obj []) "begin" .null
      let timeVal2 ← jget p "time" .null
      let e ← jget (if timeVal2.truthy then timeVal2 else .obj []) "end" .null
      let conf ← jget p "confidence" .null
      pure (Seg.mk text b e conf)))
  pure segLists.flatten

/-- Sort key of a segment: `s.get("begin") if s.get("begin") is not None else 0.0`. -/
def segKey (s : Seg) : JValue :=
  match s.beginT with
  | .null => .num 0
  | b => b

/-- A key that Python compares as a number (ints, floats and bools are mutually
comparable; `None` was already replaced by `0.0`). -/
def segKeyNum (s : Seg) : Option ℚ :=
  match segKey s with
  | .num q => some q
  | .boolean b => some (if b then 1 else 0)
  | _ => none

/-- Embeds the `segs.sort(key=...)` call: a stable ascending sort on the keys.
Python raises `TypeError` when two keys of incomparable types are compared; with
at most one element no comparison happens.  All-numeric and all-string key lists
sort; remaining mixed shapes are reported as `TypeError` (Python would also sort
a few other homogeneous key types, which this pipeline's status logic does not
distinguish — the enclosing handler catches either way). -/
def pySortSegs (segs : List Seg) : Except String (List Seg) :=
  if segs.length ≤ 1 then .ok segs
  else if segs.all (fun s => (segKeyNum s).isSome) then
    .ok (stableSort (fun a b => decide ((segKeyNum a).getD 0 ≤ (segKeyNum b).getD 0)) segs)
  else if segs.all (fun s => match segKey s with | .str _ => true | _ => false) then
    .ok (stableSort (fun a b =>
      !pyStrLt (match segKey b with | .str t => t.toList | _ => [])
               (match segKey a with | .str t => t.toList | _ => [])) segs)
  else .error "TypeError"

/-- The text payload of a segment already known to carry a string. -/
def segText (s : Seg) : String :=
  match s.text with
  | .str t => t
  | _ => ""

/-- Embeds `extract_transcript_from_prosody`: keep segments whose `text` is a
string, sort by `begin`, join the stripped non-empty texts with spaces. -/
def extract_transcript_from_prosody (hume_obj : JValue) :
    Except String (String × List Seg) := do
  let allSegs ← iter_prosody_text_segments hume_obj
  let segs := allSegs.filter (fun s => match s.text with | .str _ => true | _ => false)
  let sorted ← pySortSegs segs
  let texts := ((sorted.map segText).map pyStrip).filter (fun t => t ≠ "")
  pure (String.intercalate " " texts, sorted)

/-- One entry of a `top_emotions` list: `{"name": n, "score": s}`. -/
structure EmoEntry where
  name : String
  score : ℚ
  deriving DecidableEq, Repr

/-- The `defaultdict(list)` accumulation `scores[name].append(score)`:
first-seen key order is preserved, scores append at the end of a key's list. -/
def addScore (acc : List (String × List ℚ)) (name : String) (score : ℚ) :
    List (String × List ℚ) :=
  match acc with
  | [] => [(name, [score])]
  | (n, vs) :: rest =>
      if n = name then (n, vs ++ [score]) :: rest
      else (n, vs) :: addScore rest name score

/-- A value accepted by `isinstance(score, (int, float))` — Python bools are
ints, so they pass and convert via `float` to 0 or 1. -/
def jScoreNum : JValue → Option ℚ
  | .num q => some q
  | .boolean b => some (if b then 1 else 0)
  | _ => none

/-- Collects the `(name, score)` pairs visited by the nested loops of
`aggregate_emotions_from_prosody` / `aggregate_emotions_from_face`, in
iteration order, keeping only pairs passing both `isinstance` checks. -/
def collectEmotionScores (hume_obj : JValue) (model : String) :
    Except String (List (String × ℚ)) := do
  let groups ← jelems (get_grouped_predictions hume_obj model)
  let pairLists ← groups.mapM (fun g => do
    let predsVal ← jget g "predictions" (.arr [])
    let preds ← jelems (if predsVal.truthy then predsVal else .arr [])
    let inner ← preds.mapM (fun pred => do
      let emosVal ← jget pred "emotions" (.arr [])
      let emos ← jelems (if emosVal.truthy then emosVal else .arr [])
      let kept ← emos.mapM (fun emo => do
        let nameVal ← jget emo "name" .null
        let scoreVal ← jget emo "score" .null
        pure (match nameVal, jScoreNum scoreVal with
          | .str n, some q => [(n, q)]
          | _, _ => []))
      pure kept.flatten)
    pure inner.flatten)
  pure pairLists.flatten

/-- Embeds `aggregate_emotions_from_prosody` and `aggregate_emotions_from_face`
(the two bodies are identical up to the model key): average the scores per
emotion name, sort descending by average (stable, as `list.sort(reverse=True)`
is), truncate to `top_k`, and round each kept score to six decimals. -/
def aggregate_emotions (hume_obj : JValue) (model : String) (top_k : Nat) :
    Except String (List EmoEntry) := do
  let pairs ← collectEmotionScores hume_obj model
  let scores := pairs.foldl (fun acc p => addScore acc p.1 p.2) []
  let averaged := (scores.filter (fun nv => !nv.2.isEmpty)).map
    (fun nv => (nv.1, nv.2.sum / (nv.2.length : ℚ)))
  let sorted := stableSort (fun a b => decide (b.2 ≤ a.2)) averaged
  pure ((sorted.take top_k).map (fun nv => EmoEntry.mk nv.1 (pyRound6 nv.2)))

/-- Characters accepted by the `\d` class of the filename pattern. -/
def isDigitChar (c : Char) : Bool := c.isDigit

/-- Matches the tail `\d{8}-\d{6}_(?:audio|video)\.(?:wav|mp4)$` of the
filename pattern against a character list, returning the timestamp digits. -/
def matchFilenameTail (cs : List Char) : Option String :=
  if cs.length = 25 then
    let stamp := cs.take 15
    let rest := cs.drop 15
    if ((stamp.take 8).all isDigitChar) ∧ ((stamp.drop 8).headD ' ' = '-') ∧
        ((stamp.drop 9).all isDigitChar) ∧ (rest.headD ' ' = '_') ∧
        ((rest.drop 1 = "audio.wav".toList) ∨ (rest.drop 1 = "video.wav".toList) ∨
         (rest.drop 1 = "audio.mp4".toList) ∨ (rest.drop 1 = "video.mp4".toList)) then
      some (String.mk stamp)
    else none
  else none

/-- The non-greedy `(.+?)_` prefix: try the shortest non-empty prefix first,
scanning the split point left to right. -/
def findFilenameSplit : List Char → List Char → Option (String × String)
  | acc, '_' :: rest =>
      if acc ≠ [] then
        match matchFilenameTail rest with
        | some ts => some (String.mk acc.reverse, ts)
        | none => findFilenameSplit ('_' :: acc) rest
      else findFilenameSplit ('_' :: acc) rest
  | acc, c :: rest => findFilenameSplit (c :: acc) rest
  | _, [] => none

/-- Embeds `parse_participant_and_ts_from_filename`, including the raise when
`source` is truthy but not a dict (the `(hume_obj.get("source") or {})`
chain). -/
def parse_participant_and_ts_from_filename (hume_obj : JValue) :
    Except String (Option String × Option String) := do
  let sourceVal ← jget hume_obj "source" .null
  let filename ← jget (if sourceVal.truthy then sourceVal else .obj []) "filename" .null
  match filename with
  | .str s =>
      match findFilenameSplit [] s.toList with
      | some (p, ts) => pure (some p, some ts)
      | none => pure (none, none)
  | _ => pure (none, none)

/-- The audio half of an `EmotionSummary`. -/
inductive AudioSummary where
  | ok (transcript : String) (segments : List Seg) (top_emotions : List EmoEntry)
  | noData
  | missing
  | err (msg : String)

/-- The video half of an `EmotionSummary`. -/
inductive VideoSummary where
  | ok (frame_count : Nat) (top_emotions : List EmoEntry)
  | noData
  | missing
  | err (msg : String)
  deriving DecidableEq, Repr

/-- The `status` string stored in the audio record. -/
def AudioSummary.status : AudioSummary → String
  | .ok _ _ _ => "ok"
  | .noData => "no_data"
  | .missing => "missing"
  | .err _ => "error"

/-- The `status` string stored in the video record. -/
def VideoSummary.status : VideoSummary → String
  | .ok _ _ => "ok"
  | .noData => "no_data"
  | .missing => "missing"
  | .err _ => "error"

/-- The `top_emotions` list of an audio record, `[]` when absent. -/
def AudioSummary.top : AudioSummary → List EmoEntry
  | .ok _ _ t => t
  | _ => []

/-- The `top_emotions` list of a video record, `[]` when absent. -/
def VideoSummary.top : VideoSummary → List EmoEntry
  | .ok _ t => t
  | _ => []

/-- The per-speaker summary produced by `summarize_hume_batch`. -/
structure HumeSummary where
  participantKey : String
  audio : AudioSummary
  video : VideoSummary
  timestamp : String

/-- Python truthiness of an `Optional[Dict]` argument (`if audio_obj:`). -/
def optTruthy (o : Option JValue) : Bool :=
  match o with
  | some j => j.truthy
  | none => false

/-- Lines 125–132 of `summarize_hume_batch`: fill participant/timestamp from
filenames when not given.  Each parse call sits outside any `try` block, so its
exceptions propagate out of `summarize_hume_batch`. -/
def resolveMeta (audio_obj video_obj : Option JValue)
    (participant timestamp : Option String) :
    Except String (Option String × Option String) := do
  let mut p := participant
  let mut ts := timestamp
  if p.isNone && optTruthy audio_obj then
    let r ← parse_participant_and_ts_from_filename (audio_obj.getD .null)
    p := r.1
  if ts.isNone && optTruthy audio_obj then
    let r ← parse_participant_and_ts_from_filename (audio_obj.getD .null)
    ts := r.2
  if p.isNone && optTruthy video_obj then
    let r ← parse_participant_and_ts_from_filename (video_obj.getD .null)
    p := r.1
  if ts.isNone && optTruthy video_obj then
    let r ← parse_participant_and_ts_from_filename (video_obj.getD .null)
    ts := r.2
  pure (p, ts)

/-- The audio `try` block of `summarize_hume_batch` (lines 137–154): transcript
extraction, then emotion aggregation with the default `top_k = 5`; any raise is
caught and becomes `status="error"`. -/
def buildAudioSummary (audio_obj : Option JValue) : AudioSummary :=
  if optTruthy audio_obj then
    match (do
      let tr ← extract_transcript_from_prosody (audio_obj.getD .null)
      let top ← aggregate_emotions (audio_obj.getD .null) "prosody" 5
      pure (tr.1, tr.2, top) : Except String (String × List Seg × List EmoEntry)) with
    | .ok (transcript, segs, top) =>
        if transcript = "" ∧ top = [] then .noData
        else .ok transcript segs top
    | .error e => .err e
  else .missing

/-- The frame count of the video block:
`sum(len(g.get("predictions", [])) for g in groups)` over the face groups
(note: no `or []` here, and `len` of a string or dict succeeds). -/
def face_frame_count (video_obj : JValue) : Except String Nat := do
  let groups ← jelems (get_grouped_predictions video_obj "face")
  let lens ← groups.mapM (fun g => do
    let predsVal ← jget g "predictions" (.arr [])
    jlen predsVal)
  pure lens.sum

/-- The video `try` block of `summarize_hume_batch` (lines 156–173): emotion
aggregation, then the frame count. -/
def buildVideoSummary (video_obj : Option JValue) : VideoSummary :=
  if optTruthy video_obj then
    match (do
      let top ← aggregate_emotions (video_obj.getD .null) "face" 5
      let fc ← face_frame_count (video_obj.getD .null)
      pure (top, fc) : Except String (List EmoEntry × Nat)) with
    | .ok (top, frame_count) =>
        if top = [] ∧ frame_count = 0 then .noData
        else .ok frame_count top
    | .error e => .err e
  else .missing

/-- Python `participant or "unknown"`. -/
def pkeyOf (p : Option String) : String :=
  match p with
  | some s => if s = "" then "unknown" else s
  | none => "unknown"

/-- Embeds `summarize_hume_batch`.  The filename-parsing prelude can raise; the
two per-modality blocks cannot (each sits in its own `try`). -/
def summarize_hume_batch (audio_obj video_obj : Option JValue)
    (participant timestamp : Option String) : Except String HumeSummary := do
  let meta ← resolveMeta audio_obj video_obj participant timestamp
  pure (HumeSummary.mk (pkeyOf meta.1) (buildAudioSummary audio_obj)
    (buildVideoSummary video_obj) (meta.2.getD ""))

/-! ## recall/ws_receiver.py — audio gap fill (handler lines 563–579)

The audio buffer is a byte string of 16-bit mono PCM; we count in samples
(2 bytes each — the stream delivers whole samples), and relative timestamps
are exact rationals. -/

/-- `AUDIO_RATE = 16000`. -/
def AUDIO_RATE : ℕ := 16000

/-- `CLIP_LEN = 5.0`. -/
def CLIP_LEN : ℚ := 5

/-- The per-speaker audio-buffer state touched by the gap-fill code:
buffer length in samples and `last_audio_ts`. -/
structure AudioBufState where
  bufferSamples : ℕ
  last_audio_ts : Option ℚ
  deriving DecidableEq, Repr

/-- One `audio_separate_raw.data` event for a speaker: compute the expected
sample count since the previous timestamp with `int(...)`, pad with silence
when the chunk has fewer samples than expected, append the chunk, remember the
timestamp.  The first chunk (no prior timestamp) is appended as-is. -/
def audio_chunk_step (s : AudioBufState) (rel_ts : ℚ) (nSamples : ℕ) : AudioBufState :=
  match s.last_audio_ts with
  | none => AudioBufState.mk (s.bufferSamples + nSamples) (some rel_ts)
  | some last =>
      let expected_samples : ℤ := pyInt ((rel_ts - last) * (AUDIO_RATE : ℚ))
      let gap : ℤ := expected_samples - (nSamples : ℤ)
      let padded := if 0 < gap then s.bufferSamples + gap.toNat else s.bufferSamples
      AudioBufState.mk (padded + nSamples) (some rel_ts)

/-- Ingest a sequence of `(relative timestamp, samples)` chunks into an empty
buffer for a fresh speaker. -/
def ingest_audio (chunks : List (ℚ × ℕ)) : AudioBufState :=
  chunks.foldl (fun s c => audio_chunk_step s c.1 c.2) (AudioBufState.mk 0 none)

/-- All timestamps in the chunk list strictly increase, starting above `prev`. -/
def timesIncreasingFrom (prev : ℚ) : List (ℚ × ℕ) → Bool
  | [] => true
  | (t, _) :: rest => decide (prev < t) && timesIncreasingFrom t rest

/-- Every chunk carries at most the sample count implied by the elapsed time
since the previous chunk (no over-delivery: each step's `gap` is ≥ 0). -/
def noOverlapFrom (prev : ℚ) : List (ℚ × ℕ) → Bool
  | [] => true
  | (t, n) :: rest =>
      decide ((n : ℤ) ≤ pyInt ((t - prev) * (AUDIO_RATE : ℚ))) && noOverlapFrom t rest

/-- The timestamp of the last chunk (`t0` when no further chunks exist). -/
def lastChunkTs (t0 : ℚ) (rest : List (ℚ × ℕ)) : ℚ := (rest.map Prod.fst).getLastD t0

/-! ## recall/ws_receiver.py — participant buffers and the clip scheduler
(`participant_data`, handler media events, `check_and_create_clips`)

Frame payloads and audio chunk payloads are identified by serial numbers
assigned at delivery, so that "the same delivered frame/byte" is meaningful;
silence padding inserted by the gap filler carries no id. -/

/-- A span of the byte buffer: either gap-fill silence or one delivered chunk. -/
inductive AudioPiece where
  | silence (samples : ℕ)
  | chunk (id : ℕ) (samples : ℕ)
  deriving DecidableEq, Repr

/-- One participant's entry of `participant_data`. -/
structure PState where
  frames : List (ℕ × ℚ)
  audio_buffer : List AudioPiece
  last_audio_ts : Option ℚ
  last_clip_time : Option ℚ
  start_time : Option ℚ
  nextId : ℕ
  deriving DecidableEq, Repr

/-- The `defaultdict` initial entry. -/
def initPState : PState := PState.mk [] [] none none none 0

/-- The snapshot handed to `create_clips_for_all_sync` for one participant:
the time-filtered frames and the full audio buffer. -/
structure Clip where
  clipFrames : List (ℕ × ℚ)
  clipAudio : List AudioPiece
  deriving DecidableEq, Repr

/-- A `video_separate_png.data` event at arrival time `t` (the handler appends
`(buffer, ts_now)` to `frames`). -/
def handle_video_frame (s : PState) (t : ℚ) : PState :=
  { s with frames := s.frames ++ [(s.nextId, t)], nextId := s.nextId + 1 }

/-- An `audio_separate_raw.data` event: the same gap-fill logic as
`audio_chunk_step`, recorded piecewise so delivered bytes keep their identity. -/
def handle_audio_chunk (s : PState) (rel_ts : ℚ) (nSamples : ℕ) : PState :=
  let pad : List AudioPiece :=
    match s.last_audio_ts with
    | none => []
    | some last =>
        let gap : ℤ := pyInt ((rel_ts - last) * (AUDIO_RATE : ℚ)) - (nSamples : ℤ)
        if 0 < gap then [.silence gap.toNat] else []
  { s with audio_buffer := s.audio_buffer ++ pad ++ [.chunk s.nextId nSamples],
           last_audio_ts := some rel_ts, nextId := s.nextId + 1 }

/-- One participant's share of a `check_and_create_clips` tick: initialize
timing on first sight; once `CLIP_LEN` has elapsed since `last_clip_time`,
snapshot the frames whose capture time lies in `[clip_start, now]` together
with the whole audio buffer (queued only when non-empty), then clear both
buffers, advance `last_clip_time`, and reset `last_audio_ts`. -/
def check_and_create_clips (s : PState) (now : ℚ) : PState × Option Clip :=
  match s.start_time with
  | none => ({ s with start_time := some now, last_clip_time := some now }, none)
  | some _ =>
      let clip_start := s.last_clip_time.getD now
      if now - clip_start ≥ CLIP_LEN then
        let relevant := s.frames.filter (fun ft => decide (clip_start ≤ ft.2 ∧ ft.2 ≤ now))
        let queued : Option Clip :=
          if relevant.isEmpty && s.audio_buffer.isEmpty then none
          else some (Clip.mk relevant s.audio_buffer)
        ({ s with frames := [], audio_buffer := [], last_clip_time := some now,
                  last_audio_ts := none }, queued)
      else (s, none)

/-- The events that touch one participant's buffer. -/
inductive PEvent where
  | videoFrame (arrival : ℚ)
  | audioChunk (rel_ts : ℚ) (samples : ℕ)
  | timerTick (now : ℚ)
  deriving DecidableEq, Repr

/-- Dispatch one event. -/
def pstep (s : PState) (e : PEvent) : PState × Option Clip :=
  match e with
  | .videoFrame t => (handle_video_frame s t, none)
  | .audioChunk t n => (handle_audio_chunk s t n, none)
  | .timerTick now => check_and_create_clips s now

/-- Run a whole event sequence from the fresh state, collecting the emitted
clips in order. -/
def runEvents (events : List PEvent) : PState × List Clip :=
  events.foldl (fun acc e =>
    let r := pstep acc.1 e
    (r.1, acc.2 ++ r.2.toList)) (initPState, [])

/-- The ids of the delivered frames and audio chunks captured in a clip. -/
def clipIds (c : Clip) : List ℕ :=
  c.clipFrames.map Prod.fst ++
    c.clipAudio.filterMap (fun p => match p with | .chunk i _ => some i | .silence _ => none)

/-! ## affina/context_manager.py and affina/summarizer.py -/

/-- `WINDOW_SIZE_SECONDS = 120`. -/
def WINDOW_SIZE_SECONDS : ℚ := 120

/-- `SUMMARY_INTERVAL_SECONDS = 30`. -/
def SUMMARY_INTERVAL_SECONDS : ℚ := 30

/-- A transcript entry of the rolling window; `addedAt` is the stamped
`_added_at` (optional because the trim code reads it with `.get(..., 0)`). -/
structure TranscriptEntry where
  timestamp : String
  speaker : String
  text : String
  addedAt : Option ℚ
  deriving DecidableEq, Repr

/-- An emotion entry of a speaker's rolling window. -/
structure EmotionEntry where
  timestamp : String
  audio_emotions : List EmoEntry
  video_emotions : List EmoEntry
  addedAt : Option ℚ
  deriving DecidableEq, Repr

/-- One summarization result (the dict produced by `summarize_window`); fields
the downstream code reads with `.get` and a default are optional.  A non-bool
truthy `coaching_ready` value is modelled by its truth value. -/
structure WindowSummary where
  summaryText : Option String
  stage_assessment : Option String
  coaching_ready : Option Bool
  deriving DecidableEq, Repr

/-- The mutable state of one `SessionContext` (the fields the embedded
operations touch; the emotion window is the dict `{speaker: [entries]}` as an
association list in insertion order). -/
structure SessionContext where
  sales_rep_name : String
  objective : String
  phase : String
  transcript_window : List TranscriptEntry
  emotion_window : List (String × List EmotionEntry)
  summaries : List WindowSummary
  last_summary_time : ℚ
  window_start_time : ℚ
  deriving DecidableEq, Repr

/-- Embeds `_trim_transcript_window`: keep entries with
`_added_at (default 0) > now - WINDOW_SIZE_SECONDS`. -/
def trim_transcript_window (now : ℚ) (w : List TranscriptEntry) : List TranscriptEntry :=
  w.filter (fun e => decide (e.addedAt.getD 0 > now - WINDOW_SIZE_SECONDS))

/-- Embeds `_trim_emotion_window` applied to every speaker key (as
`process_context_updates` does); trimming keeps the key. -/
def trim_emotion_window (now : ℚ) (w : List (String × List EmotionEntry)) :
    List (String × List EmotionEntry) :=
  w.map (fun kv =>
    (kv.1, kv.2.filter (fun e => decide (e.addedAt.getD 0 > now - WINDOW_SIZE_SECONDS))))

/-- Embeds `add_transcript_entry`: stamp `_added_at = now`, append, trim. -/
def add_transcript_entry (ctx : SessionContext) (now : ℚ) (e : TranscriptEntry) :
    SessionContext :=
  { ctx with transcript_window :=
      trim_transcript_window now (ctx.transcript_window ++ [{ e with addedAt := some now }]) }

/-- Inserts into the `{speaker: [...]}` dict: append to an existing key's list
or add the key at the end. -/
def appendToSpeaker (w : List (String × List EmotionEntry)) (speaker : String)
    (e : EmotionEntry) : List (String × List EmotionEntry) :=
  match w with
  | [] => [(speaker, [e])]
  | (k, es) :: rest =>
      if k = speaker then (k, es ++ [e]) :: rest
      else (k, es) :: appendToSpeaker rest speaker e

/-- Embeds `add_emotion_entry`: stamp `_added_at = now`, append under the
speaker, trim that speaker's list. -/
def add_emotion_entry (ctx : SessionContext) (now : ℚ) (speaker : String)
    (e : EmotionEntry) : SessionContext :=
  let stamped : EmotionEntry := { e with addedAt := some now }
  let appended := appendToSpeaker ctx.emotion_window speaker stamped
  let trimmed := appended.map (fun kv =>
    if kv.1 = speaker then
      (kv.1, kv.2.filter (fun x => decide (x.addedAt.getD 0 > now - WINDOW_SIZE_SECONDS)))
    else kv)
  { ctx with emotion_window := trimmed }

/-- Embeds `create_cumulative_summary` from `affina/summarizer.py`:
`"[Meeting just started]"` for an empty history, otherwise the last five
summaries (oldest first, list order) formatted `[stage] text` and joined with
an arrow separator. -/
def create_cumulative_summary (previous_summaries : List WindowSummary) : String :=
  if previous_summaries.isEmpty then "[Meeting just started]"
  else
    String.intercalate " → "
      ((previous_summaries.drop (previous_summaries.length - 5)).map
        (fun summ => "[" ++ summ.stage_assessment.getD "Unknown" ++ "] " ++
          summ.summaryText.getD ""))

/-- Stated from the spec's words, for comparison with the code: the
conversation history is "the concatenation of the last five prior summaries'
`[phase] text`, oldest first, joined with an arrow-like separator; `[Meeting
just started]` if none exist", where the prior summaries are all summaries
except the most recent one.  Summaries are held oldest-first, so the last five
in list order are the claim's "last five ... oldest first". -/
def spec_conversation_history (summaries : List WindowSummary) : String :=
  let prior := summaries.dropLast
  if prior = [] then "[Meeting just started]"
  else
    String.intercalate " → "
      ((prior.drop (prior.length - 5)).map
        (fun summ => "[" ++ summ.stage_assessment.getD "Unknown" ++ "] " ++
          summ.summaryText.getD ""))

/-- The dict returned by `prepare_coaching_context` (fields the claims and the
caller read). -/
structure CoachingContext where
  phase : String
  objective : String
  sales_rep_name : String
  conversation_history : String
  cumulative_summary : String
  previous_summaries_count : ℕ
  current_transcript : String
  rep_emotions : List EmotionEntry
  customer_emotions : List (String × List EmotionEntry)
  latest_analysis : Option WindowSummary
  coaching_ready : Bool
  deriving DecidableEq, Repr

/-- Embeds `prepare_coaching_context`. -/
def prepare_coaching_context (ctx : SessionContext) : CoachingContext :=
  let historical_summary :=
    create_cumulative_summary (if ctx.summaries.isEmpty then [] else ctx.summaries.dropLast)
  let latest_summary := ctx.summaries.getLast?
  let raw_transcript := String.intercalate "\n"
    (ctx.transcript_window.map (fun e =>
      "[" ++ e.timestamp ++ "] " ++ e.speaker ++ ": " ++ e.text))
  CoachingContext.mk ctx.phase ctx.objective ctx.sales_rep_name
    historical_summary historical_summary
    (if ctx.summaries.isEmpty then 0 else ctx.summaries.length - 1)
    raw_transcript
    ((ctx.emotion_window.lookup ctx.sales_rep_name).getD [])
    (ctx.emotion_window.filter (fun kv => kv.1 != ctx.sales_rep_name))
    latest_summary
    (match latest_summary with
     | some s => s.coaching_ready.getD false
     | none => false)

/-- Embeds `should_summarize`. -/
def should_summarize (ctx : SessionContext) (now : ℚ) : Bool :=
  decide (now - ctx.last_summary_time ≥ SUMMARY_INTERVAL_SECONDS)

/-- Embeds `create_summary`, with the external LLM summarizer abstracted as an
oracle: `none` models the window being empty never reaching the call, or the
summarization attempt raising (caught, logged, `None` returned). -/
def create_summary (ctx : SessionContext) (now : ℚ) (oracle : Option WindowSummary) :
    SessionContext × Option WindowSummary :=
  if ctx.transcript_window.isEmpty && ctx.emotion_window.isEmpty then (ctx, none)
  else
    match oracle with
    | none => (ctx, none)
    | some summ =>
        ({ ctx with summaries := ctx.summaries ++ [summ],
                    last_summary_time := now, window_start_time := now }, some summ)

/-- The trim pass at the top of `process_context_updates`: both rolling
windows trimmed to the retention horizon. -/
def trimmed_context (ctx : SessionContext) (now : ℚ) : SessionContext :=
  { ctx with
    transcript_window := trim_transcript_window now ctx.transcript_window,
    emotion_window := trim_emotion_window now ctx.emotion_window }

/-- Embeds `process_context_updates` for an existing session: trim both
windows, and when the summarization interval has elapsed run `create_summary`;
a fresh summary whose `coaching_ready` is truthy returns the prepared coaching
context, every other path returns `None`. -/
def process_context_updates (ctx : SessionContext) (now : ℚ)
    (oracle : Option WindowSummary) : SessionContext × Option CoachingContext :=
  if should_summarize (trimmed_context ctx now) now then
    match create_summary (trimmed_context ctx now) now oracle with
    | (ctx2, some summ) =>
        if summ.coaching_ready.getD false then (ctx2, some (prepare_coaching_context ctx2))
        else (ctx2, none)
    | (ctx2, none) => (ctx2, none)
  else (trimmed_context ctx now, none)

/-- The caller's gate in `process_affina_feedback` (lines 373–379): the coach
is called exactly when a context came back and its `coaching_ready` is truthy. -/
def coachInvoked (result : Option CoachingContext) : Bool :=
  match result with
  | some cc => cc.coaching_ready
  | none => false

/-! ## config/storage_utils.py — change detection -/

/-- One stored emotion dict `{name, score}` as read back with `.get`. -/
structure StoredEmotion where
  name : Option String
  score : Option ℚ
  deriving DecidableEq, Repr

/-- The previous persisted state (`get_last_emotion_state` result).  A missing
or empty dict — Python-falsy, the first-detection case — is `none` at the call
site; a present dict carries the two lists read with `.get(..., [])`. -/
structure OldEmotionState where
  audio_emotions : List StoredEmotion
  video_emotions : List StoredEmotion
  deriving DecidableEq, Repr

/-- The new summary's two `top_emotions` lists, read with
`new_emotions.get(modality, {}).get("top_emotions", [])`. -/
structure NewEmotions where
  audioTop : List StoredEmotion
  videoTop : List StoredEmotion
  deriving DecidableEq, Repr

/-- One modality's comparison block of `has_emotion_changed`: only runs when
both lists are non-empty; first compares the top names, then the top scores
(default 0) against the threshold. -/
def modalityChanged (oldList newList : List StoredEmotion) (threshold : ℚ) : Bool :=
  if !oldList.isEmpty && !newList.isEmpty then
    let old_top := oldList.headD (StoredEmotion.mk none none)
    let new_top := newList.headD (StoredEmotion.mk none none)
    if old_top.name ≠ new_top.name then true
    else decide (|old_top.score.getD 0 - new_top.score.getD 0| > threshold)
  else false

/-- Embeds `has_emotion_changed` (threshold default 0.1 passed explicitly). -/
def has_emotion_changed (old_state : Option OldEmotionState) (new_emotions : NewEmotions)
    (threshold : ℚ) : Bool :=
  match old_state with
  | none => true
  | some old =>
      modalityChanged old.audio_emotions new_emotions.audioTop threshold ||
      modalityChanged old.video_emotions new_emotions.videoTop threshold

/-! ## Concrete inputs used by counterexamples and witnesses -/

/-- A Hume emotion object `{"name": n, "score": q}`. -/
def emotion_json (n : String) (q : ℚ) : JValue :=
  .obj [("name", .str n), ("score", .num q)]

/-- A well-formed prosody result carrying one prediction with the given
emotion list. -/
def prosody_results (emos : List JValue) : JValue :=
  .obj [("results", .obj [("predictions", .arr [.obj [("models", .obj [("prosody",
    .obj [("grouped_predictions", .arr [.obj [("predictions", .arr [.obj [("emotions",
      .arr emos)]])]])])])]])])]

/-- A prosody result with four distinct emotions, scores 0.4 > 0.3 > 0.2 > 0.1. -/
def four_emotion_input : JValue :=
  prosody_results [emotion_json "Joy" (4/10), emotion_json "Calm" (3/10),
    emotion_json "Awe" (2/10), emotion_json "Fear" (1/10)]

/-- A session context holding two summaries; the earlier one reads
`[Pitch] intro`, the latest is coaching-ready. -/
def c5_example_context : SessionContext :=
  SessionContext.mk "Rep" "close the deal" "pitch" [] []
    [WindowSummary.mk (some "intro") (some "Pitch") (some false),
     WindowSummary.mk (some "qa") (some "Q&A") (some true)] 0 0

/-- The latest summary of `c5_example_context`. -/
def c5_latest_summary : WindowSummary := WindowSummary.mk (some "qa") (some "Q&A") (some true)

/-- A session context due for summarization: one transcript entry in the
window, last summary 30 seconds ago. -/
def c9_example_context : SessionContext :=
  SessionContext.mk "Rep" "close the deal" "pitch"
    [TranscriptEntry.mk "20250101-000000" "Rep" "hello" (some 0)] [] [] 0 0

/-- A coaching-ready summarizer result. -/
def c9_example_summary : WindowSummary :=
  WindowSummary.mk (some "good window") (some "Pitch") (some true)

/-- A participant state mid-session: one buffered frame, one buffered audio
chunk, a remembered audio timestamp, timing initialized at 0. -/
def c10_example_state : PState :=
  PState.mk [(0, 1)] [AudioPiece.chunk 1 100] (some 2) (some 0) (some 0) 2

/-- An event sequence producing two flushed clips: the timer initializes at 0,
a frame and an audio chunk arrive, the tick at 6 flushes them, another frame
and chunk arrive, and the tick at 12 flushes again. -/
def c8_example_events : List PEvent :=
  [PEvent.timerTick 0, PEvent.videoFrame 1, PEvent.audioChunk 1 160,
   PEvent.timerTick 6, PEvent.videoFrame 7, PEvent.audioChunk 7 160,
   PEvent.timerTick 12]

/-- Three equal, exactly contiguous one-second chunks at 16 kHz. -/
def c1_example_chunks : List (ℚ × ℕ) := [(0, 16000), (1, 16000), (2, 16000)]

/-! ## Infrastructure lemmas -/

theorem mem_stableInsert {α : Type} (le : α → α → Bool) (x : α) (l : List α) (y : α) :
    y ∈ stableInsert le x l ↔ y = x ∨ y ∈ l := by
  induction l with
  | nil => simp [stableInsert]
  | cons a as ih =>
      simp only [stableInsert]
      split
      · simp only [List.mem_cons, ih]
        tauto
      · simp [List.mem_cons]

theorem pairwise_stableInsert {α : Type} (le : α → α → Bool)
    (total : ∀ a b, le a b = true ∨ le b a = true)
    (trans : ∀ a b c, le a b = true → le b c = true → le a c = true)
    (x : α) (l : List α) (h : l.Pairwise (fun a b => le a b = true)) :
    (stableInsert le x l).Pairwise (fun a b => le a b = true) := by
  induction l with
  | nil => simp [stableInsert]
  | cons a as ih =>
      rcases List.pairwise_cons.mp h with ⟨ha, htail⟩
      simp only [stableInsert]
      split
      · refine List.pairwise_cons.mpr ⟨?_, ih htail⟩
        intro y hy
        rcases (mem_stableInsert le x as y).mp hy with rfl | hy'
        · assumption
        · exact ha y hy'
      · rename_i hax
        have hxa : le x a = true := by
          rcases total x a with h1 | h1
          · exact h1
          · exact absurd h1 hax
        refine List.pairwise_cons.mpr ⟨?_, h⟩
        intro y hy
        rcases List.mem_cons.mp hy with rfl | hy'
        · exact hxa
        · exact trans x a y hxa (ha y hy')

theorem pairwise_stableSort {α : Type} (le : α → α → Bool)
    (total : ∀ a b, le a b = true ∨ le b a = true)
    (trans : ∀ a b c, le a b = true → le b c = true → le a c = true)
    (l : List α) : (stableSort le l).Pairwise (fun a b => le a b = true) := by
  have aux : ∀ (l acc : List α), acc.Pairwise (fun a b => le a b = true) →
      (l.foldl (fun acc x => stableInsert le x acc) acc).Pairwise
        (fun a b => le a b = true) := by
    intro l
    induction l with
    | nil => intro acc hacc; simpa using hacc
    | cons a as ih =>
        intro acc hacc
        exact ih _ (pairwise_stableInsert le total trans a acc hacc)
  exact aux l [] (by simp)

theorem length_stableSort {α : Type} (le : α → α → Bool) (l : List α) :
    (stableSort le l).length = l.length := by
  have auxIns : ∀ (x : α) (m : List α), (stableInsert le x m).length = m.length + 1 := by
    intro x m
    induction m with
    | nil => simp [stableInsert]
    | cons a as ih => simp only [stableInsert]; split <;> simp [ih]
  have aux : ∀ (l acc : List α),
      (l.foldl (fun acc x => stableInsert le x acc) acc).length = acc.length + l.length := by
    intro l
    induction l with
    | nil => simp
    | cons a as ih => intro acc; simp [List.foldl_cons, ih, auxIns]; omega
  simpa using aux l []

theorem roundHalfEven_le_floor_add_one (q : ℚ) : roundHalfEven q ≤ ⌊q⌋ + 1 := by
  unfold roundHalfEven
  split_ifs <;> omega

theorem floor_le_roundHalfEven (q : ℚ) : ⌊q⌋ ≤ roundHalfEven q := by
  unfold roundHalfEven
  split_ifs <;> omega

theorem roundHalfEven_of_lt (q : ℚ) (h : q - ⌊q⌋ < 1/2) : roundHalfEven q = ⌊q⌋ := by
  unfold roundHalfEven
  rw [if_pos h]

theorem roundHalfEven_of_gt (q : ℚ) (h : 1/2 < q - ⌊q⌋) : roundHalfEven q = ⌊q⌋ + 1 := by
  unfold roundHalfEven
  rw [if_neg (not_lt.mpr (le_of_lt h)), if_neg (ne_of_gt h)]

theorem roundHalfEven_of_eq (q : ℚ) (h : q - ⌊q⌋ = 1/2) :
    roundHalfEven q = (if 2 ∣ ⌊q⌋ then ⌊q⌋ else ⌊q⌋ + 1) := by
  unfold roundHalfEven
  rw [if_neg (by rw [h]; exact lt_irrefl _), if_pos h]

theorem roundHalfEven_mono {a b : ℚ} (h : a ≤ b) :
    roundHalfEven a ≤ roundHalfEven b := by
  have hf : ⌊a⌋ ≤ ⌊b⌋ := Int.floor_le_floor h
  by_cases hlt : ⌊a⌋ < ⌊b⌋
  · calc roundHalfEven a ≤ ⌊a⌋ + 1 := roundHalfEven_le_floor_add_one a
      _ ≤ ⌊b⌋ := hlt
      _ ≤ roundHalfEven b := floor_le_roundHalfEven b
  · have heq : ⌊a⌋ = ⌊b⌋ := le_antisymm hf (not_lt.mp hlt)
    have heqQ : ((⌊a⌋ : ℤ) : ℚ) = ((⌊b⌋ : ℤ) : ℚ) := by rw [heq]
    have hfrac : a - ⌊a⌋ ≤ b - ⌊b⌋ := by linarith
    rcases lt_trichotomy (a - ⌊a⌋) (1/2 : ℚ) with ha | ha | ha
    · rw [roundHalfEven_of_lt a ha]
      calc ⌊a⌋ = ⌊b⌋ := heq
        _ ≤ roundHalfEven b := floor_le_roundHalfEven b
    · rw [roundHalfEven_of_eq a ha]
      rcases lt_trichotomy (b - ⌊b⌋) (1/2 : ℚ) with hb | hb | hb
      · exact absurd (lt_of_le_of_lt (ha ▸ hfrac) hb) (lt_irrefl _)
      · rw [roundHalfEven_of_eq b hb]
        split_ifs <;> omega
      · rw [roundHalfEven_of_gt b hb]
        split_ifs <;> omega
    · rw [roundHalfEven_of_gt a ha]
      rcases lt_trichotomy (b - ⌊b⌋) (1/2 : ℚ) with hb | hb | hb
      · exact absurd (lt_of_lt_of_le ha (le_trans hfrac (le_of_lt hb)))
          (by intro hcon; linarith)
      · exact absurd (lt_of_lt_of_le ha (hb ▸ hfrac)) (lt_irrefl _)
      · rw [roundHalfEven_of_gt b hb]
        omega

theorem pyRound6_mono {a b : ℚ} (h : a ≤ b) : pyRound6 a ≤ pyRound6 b := by
  unfold pyRound6
  have h1 : a * 1000000 ≤ b * 1000000 := by nlinarith
  have h2 := roundHalfEven_mono h1
  have h3 : (roundHalfEven (a * 1000000) : ℚ) ≤ (roundHalfEven (b * 1000000) : ℚ) := by
    exact_mod_cast h2
  linarith

theorem aggregate_emotions_sorted (j : JValue) (m : String) (k : ℕ)
    (l : List EmoEntry) (h : aggregate_emotions j m k = .ok l) :
    l.Pairwise (fun x y => y.score ≤ x.score) ∧ l.length ≤ k := by
  unfold aggregate_emotions at h
  cases hc : collectEmotionScores j m with
  | error e => rw [hc] at h; simp [Bind.bind, Except.bind] at h
  | ok pairs =>
      rw [hc] at h
      simp only [Bind.bind, Except.bind, Pure.pure, Except.pure, Except.ok.injEq] at h
      subst h
      constructor
      · have hs := pairwise_stableSort (fun a b : String × ℚ => decide (b.2 ≤ a.2))
          (fun a b => by
            rcases le_total b.2 a.2 with h1 | h1
            · exact Or.inl (by simpa using h1)
            · exact Or.inr (by simpa using h1))
          (fun a b c hab hbc => by
            simp only [decide_eq_true_eq] at hab hbc ⊢
            exact le_trans hbc hab)
          ((pairs.foldl (fun acc p => addScore acc p.1 p.2) []).filter
              (fun nv => !nv.2.isEmpty) |>.map
            (fun nv => (nv.1, nv.2.sum / (nv.2.length : ℚ))))
        have htake := hs.sublist (List.take_sublist k _)
        rw [List.pairwise_map]
        refine htake.imp ?_
        intro x y hxy
        simp only [decide_eq_true_eq] at hxy
        exact pyRound6_mono hxy
      · simp [List.length_take]


/-! ## Helper lemmas about `summarize_hume_batch` -/

theorem resolveMeta_given (a v : Option JValue) (p t : String) :
    resolveMeta a v (some p) (some t) = .ok (some p, some t) := by
  rfl

theorem summarize_given (a v : Option JValue) (p t : String) :
    summarize_hume_batch a v (some p) (some t) =
      .ok (HumeSummary.mk (pkeyOf (some p)) (buildAudioSummary a)
        (buildVideoSummary v) t) := by
  unfold summarize_hume_batch
  rw [show (do
    let meta ← resolveMeta a v (some p) (some t)
    pure (HumeSummary.mk (pkeyOf meta.1) (buildAudioSummary a)
      (buildVideoSummary v) (meta.2.getD "")) : Except String HumeSummary) =
    Except.bind (resolveMeta a v (some p) (some t)) (fun meta =>
      pure (HumeSummary.mk (pkeyOf meta.1) (buildAudioSummary a)
        (buildVideoSummary v) (meta.2.getD ""))) from rfl]
  rw [resolveMeta_given]
  rfl

theorem audio_status_mem (a : Option JValue) :
    (buildAudioSummary a).status ∈ ["ok", "no_data", "missing", "error"] := by
  cases h : buildAudioSummary a <;> simp [AudioSummary.status]

theorem video_status_mem (v : Option JValue) :
    (buildVideoSummary v).status ∈ ["ok", "no_data", "missing", "error"] := by
  cases h : buildVideoSummary v <;> simp [VideoSummary.status]

theorem buildAudioSummary_top_bound (a : Option JValue) :
    (buildAudioSummary a).top.Pairwise (fun x y => y.score ≤ x.score) ∧
    (buildAudioSummary a).top.length ≤ 5 := by
  unfold buildAudioSummary
  by_cases ht : optTruthy a
  · simp only [ht, if_true]
    cases he : extract_transcript_from_prosody (a.getD .null) with
    | error e =>
        simp [he, Bind.bind, Except.bind, AudioSummary.top]
    | ok tr =>
        cases hg : aggregate_emotions (a.getD .null) "prosody" 5 with
        | error e =>
            simp [he, hg, Bind.bind, Except.bind, AudioSummary.top]
        | ok top =>
            have hb := aggregate_emotions_sorted (a.getD .null) "prosody" 5 top hg
            simp only [he, hg, Bind.bind, Except.bind, Pure.pure, Except.pure]
            split
            · simp [AudioSummary.top]
            · simpa [AudioSummary.top] using hb
  · simp [ht, AudioSummary.top]

theorem buildVideoSummary_top_bound (v : Option JValue) :
    (buildVideoSummary v).top.Pairwise (fun x y => y.score ≤ x.score) ∧
    (buildVideoSummary v).top.length ≤ 5 := by
  unfold buildVideoSummary
  by_cases ht : optTruthy v
  · simp only [ht, if_true]
    cases hg : aggregate_emotions (v.getD .null) "face" 5 with
    | error e =>
        simp [hg, Bind.bind, Except.bind, VideoSummary.top]
    | ok top =>
        cases hf : face_frame_count (v.getD .null) with
        | error e =>
            simp [hg, hf, Bind.bind, Except.bind, VideoSummary.top]
        | ok fc =>
            have hb := aggregate_emotions_sorted (v.getD .null) "face" 5 top hg
            simp only [hg, hf, Bind.bind, Except.bind, Pure.pure, Except.pure]
            split
            · simp [VideoSummary.top]
            · simpa [VideoSummary.top] using hb
  · simp [ht, VideoSummary.top]

/-! ## Claims C2, C3, C4 — the emotion aggregator -/

section ConcreteEvaluation

attribute [local semireducible] Rat.add Rat.mul Rat.sub Rat.inv Rat.ofScientific

/-- C2, counterexample.  The aggregator is called with its default
`top_k = 5`, not 3: a prosody input with four distinct emotions yields a
`top_emotions` list of length 4 in the `EmotionSummary`, refuting "length at
most 3". -/
theorem claim_C2_counterexample :
    (summarize_hume_batch (some four_emotion_input) none (some "P") (some "T")).map
      (fun s => s.audio.top) =
      .ok [EmoEntry.mk "Joy" (4/10), EmoEntry.mk "Calm" (3/10),
           EmoEntry.mk "Awe" (2/10), EmoEntry.mk "Fear" (1/10)] ∧
    ¬ ([EmoEntry.mk "Joy" (4/10), EmoEntry.mk "Calm" (3/10),
        EmoEntry.mk "Awe" (2/10), EmoEntry.mk "Fear" (1/10)].length ≤ 3) := by
  constructor
  · rfl
  · decide

/-- C2, amended: for any input, every `top_emotions` list present in the
aggregator's `EmotionSummary` output is sorted descending by score and has
length at most 5 (the code's fixed `top_k` default), not 3. -/
theorem claim_C2_theorem (a v : Option JValue) (p t : Option String) (s : HumeSummary)
    (h : summarize_hume_batch a v p t = .ok s) :
    s.audio.top.Pairwise (fun x y => y.score ≤ x.score) ∧ s.audio.top.length ≤ 5 ∧
    s.video.top.Pairwise (fun x y => y.score ≤ x.score) ∧ s.video.top.length ≤ 5 := by
  have haud : s.audio = buildAudioSummary a ∧ s.video = buildVideoSummary v := by
    unfold summarize_hume_batch at h
    cases hm : resolveMeta a v p t with
    | error e =>
        rw [show (do
          let meta ← resolveMeta a v p t
          pure (HumeSummary.mk (pkeyOf meta.1) (buildAudioSummary a)
            (buildVideoSummary v) (meta.2.getD "")) : Except String HumeSummary) =
          Except.bind (resolveMeta a v p t) (fun meta =>
            pure (HumeSummary.mk (pkeyOf meta.1) (buildAudioSummary a)
              (buildVideoSummary v) (meta.2.getD ""))) from rfl, hm] at h
        simp [Except.bind] at h
    | ok meta =>
        rw [show (do
          let meta ← resolveMeta a v p t
          pure (HumeSummary.mk (pkeyOf meta.1) (buildAudioSummary a)
            (buildVideoSummary v) (meta.2.getD "")) : Except String HumeSummary) =
          Except.bind (resolveMeta a v p t) (fun meta =>
            pure (HumeSummary.mk (pkeyOf meta.1) (buildAudioSummary a)
              (buildVideoSummary v) (meta.2.getD ""))) from rfl, hm] at h
        simp only [Except.bind, Pure.pure, Except.pure, Except.ok.injEq] at h
        rw [← h]
        exact ⟨rfl, rfl⟩
  rcases haud with ⟨ha, hv⟩
  rw [ha, hv]
  rcases buildAudioSummary_top_bound a with ⟨h1, h2⟩
  rcases buildVideoSummary_top_bound v with ⟨h3, h4⟩
  exact ⟨h1, h2, h3, h4⟩

/-- C2, witness for the amended theorem at the four-emotion input. -/
theorem claim_C2_theorem_witness :
    (HumeSummary.mk "P"
      (AudioSummary.ok "" [] [EmoEntry.mk "Joy" (4/10), EmoEntry.mk "Calm" (3/10),
        EmoEntry.mk "Awe" (2/10), EmoEntry.mk "Fear" (1/10)])
      VideoSummary.missing "T").audio.top.Pairwise (fun x y => y.score ≤ x.score) ∧
    (HumeSummary.mk "P"
      (AudioSummary.ok "" [] [EmoEntry.mk "Joy" (4/10), EmoEntry.mk "Calm" (3/10),
        EmoEntry.mk "Awe" (2/10), EmoEntry.mk "Fear" (1/10)])
      VideoSummary.missing "T").audio.top.length ≤ 5 ∧
    (HumeSummary.mk "P"
      (AudioSummary.ok "" [] [EmoEntry.mk "Joy" (4/10), EmoEntry.mk "Calm" (3/10),
        EmoEntry.mk "Awe" (2/10), EmoEntry.mk "Fear" (1/10)])
      VideoSummary.missing "T").video.top.Pairwise (fun x y => y.score ≤ x.score) ∧
    (HumeSummary.mk "P"
      (AudioSummary.ok "" [] [EmoEntry.mk "Joy" (4/10), EmoEntry.mk "Calm" (3/10),
        EmoEntry.mk "Awe" (2/10), EmoEntry.mk "Fear" (1/10)])
      VideoSummary.missing "T").video.top.length ≤ 5 :=
  claim_C2_theorem (some four_emotion_input) none (some "P") (some "T") _ (by rfl)

/-- C3, counterexample.  With `participant` and `timestamp` left at their
default `None`, a malformed `source` field (truthy non-dict) raises
`AttributeError` in the filename-parsing prelude, which sits outside both
`try` blocks: `summarize_hume_batch` does not return an `EmotionSummary`. -/
theorem claim_C3_counterexample :
    summarize_hume_batch (some (.obj [("source", .num 1)])) none none none =
      .error "AttributeError" := by
  rfl

/-- C3, amended: whenever `participant` and `timestamp` are both supplied (as
the production caller does), `summarize_hume_batch` terminates without raising
on every pair of inputs and returns a summary whose audio and video statuses
are drawn from ok | no_data | missing | error. -/
theorem claim_C3_theorem (a v : Option JValue) (p t : String) :
    ∃ s, summarize_hume_batch a v (some p) (some t) = .ok s ∧
      s.audio.status ∈ ["ok", "no_data", "missing", "error"] ∧
      s.video.status ∈ ["ok", "no_data", "missing", "error"] :=
  ⟨HumeSummary.mk (pkeyOf (some p)) (buildAudioSummary a) (buildVideoSummary v) t,
    summarize_given a v p t, audio_status_mem a, video_status_mem v⟩

/-- C4, counterexample.  An empty dict is a submitted (non-`None`) audio input,
yet Python truthiness (`if audio_obj:`) routes it to `status="missing"`, so
"missing exactly when the input is None/absent" fails. -/
theorem claim_C4_counterexample :
    summarize_hume_batch (some (JValue.obj [])) none (some "P") (some "T") =
      .ok (HumeSummary.mk "P" .missing .missing "T") ∧
    (some (JValue.obj []) : Option JValue) ≠ none := by
  exact ⟨by rfl, by simp⟩

end ConcreteEvaluation

theorem buildAudioSummary_char (a : Option JValue) :
    (buildAudioSummary a = .missing ↔ optTruthy a = false) ∧
    (buildAudioSummary a = .noData ↔ optTruthy a = true ∧
        (∃ segs, extract_transcript_from_prosody (a.getD .null) = .ok ("", segs) ∧
          aggregate_emotions (a.getD .null) "prosody" 5 = .ok [])) ∧
    (∀ tr segs top, buildAudioSummary a = .ok tr segs top →
        optTruthy a = true ∧
        extract_transcript_from_prosody (a.getD .null) = .ok (tr, segs) ∧
        aggregate_emotions (a.getD .null) "prosody" 5 = .ok top ∧
        ¬(tr = "" ∧ top = [])) ∧
    (∀ e, buildAudioSummary a = .err e →
        optTruthy a = true ∧
        (extract_transcript_from_prosody (a.getD .null) = .error e ∨
         aggregate_emotions (a.getD .null) "prosody" 5 = .error e)) := by
  by_cases ht : optTruthy a
  · cases he : extract_transcript_from_prosody (a.getD .null) with
    | error e0 =>
        have hb : buildAudioSummary a = .err e0 := by
          simp [buildAudioSummary, ht, he, Bind.bind, Except.bind]
        refine ⟨?_, ?_, ?_, ?_⟩ <;> simp [hb, ht, he]
    | ok tr =>
        obtain ⟨trs, segs0⟩ := tr
        cases hg : aggregate_emotions (a.getD .null) "prosody" 5 with
        | error e0 =>
            have hb : buildAudioSummary a = .err e0 := by
              simp [buildAudioSummary, ht, he, hg, Bind.bind, Except.bind]
            refine ⟨?_, ?_, ?_, ?_⟩ <;> simp [hb, ht, he, hg]
        | ok top0 =>
            by_cases hnd : trs = "" ∧ top0 = []
            · have hb : buildAudioSummary a = .noData := by
                simp [buildAudioSummary, ht, he, hg, Bind.bind, Except.bind,
                  Pure.pure, Except.pure, hnd.1, hnd.2]
              obtain ⟨h1, h2⟩ := hnd
              subst h1; subst h2
              refine ⟨?_, ?_, ?_, ?_⟩ <;> simp [hb, ht, he, hg]
            · have hb : buildAudioSummary a = .ok trs segs0 top0 := by
                simp only [buildAudioSummary, ht, if_true, he, hg, Bind.bind,
                  Except.bind, Pure.pure, Except.pure]
                rw [if_neg hnd]
              refine ⟨?_, ?_, ?_, ?_⟩
              · simp [hb, ht]
              · simp only [hb]
                constructor
                · intro hcon; exact absurd hcon (by simp)
                · rintro ⟨-, segs1, hx, hg1⟩
                  simp only [Except.ok.injEq, Prod.mk.injEq] at hx hg1
                  exact absurd (And.intro hx.1 hg1) hnd
              · intro tr1 segs1 top1 hok
                have h1 : (AudioSummary.ok trs segs0 top0) = .ok tr1 segs1 top1 :=
                  hb.symm.trans hok
                simp only [AudioSummary.ok.injEq] at h1
                obtain ⟨e1, e2, e3⟩ := h1
                subst e1; subst e2; subst e3
                exact ⟨ht, rfl, rfl, hnd⟩
              · intro e hcon
                have h1 : (AudioSummary.ok trs segs0 top0) = .err e := hb.symm.trans hcon
                exact absurd h1 (by simp)
  · have hb : buildAudioSummary a = .missing := by
      simp [buildAudioSummary, ht]
    have ht' : optTruthy a = false := by simpa using ht
    refine ⟨?_, ?_, ?_, ?_⟩ <;> simp [hb, ht']

theorem buildVideoSummary_char (v : Option JValue) :
    (buildVideoSummary v = .missing ↔ optTruthy v = false) ∧
    (buildVideoSummary v = .noData ↔ optTruthy v = true ∧
        aggregate_emotions (v.getD .null) "face" 5 = .ok [] ∧
        face_frame_count (v.getD .null) = .ok 0) ∧
    (∀ fc top, buildVideoSummary v = .ok fc top →
        optTruthy v = true ∧
        aggregate_emotions (v.getD .null) "face" 5 = .ok top ∧
        face_frame_count (v.getD .null) = .ok fc ∧
        ¬(top = [] ∧ fc = 0)) ∧
    (∀ e, buildVideoSummary v = .err e →
        optTruthy v = true ∧
        (aggregate_emotions (v.getD .null) "face" 5 = .error e ∨
         face_frame_count (v.getD .null) = .error e)) := by
  by_cases ht : optTruthy v
  · cases hg : aggregate_emotions (v.getD .null) "face" 5 with
    | error e0 =>
        have hb : buildVideoSummary v = .err e0 := by
          simp [buildVideoSummary, ht, hg, Bind.bind, Except.bind]
        refine ⟨?_, ?_, ?_, ?_⟩ <;> simp [hb, ht, hg]
    | ok top0 =>
        cases hf : face_frame_count (v.getD .null) with
        | error e0 =>
            have hb : buildVideoSummary v = .err e0 := by
              simp [buildVideoSummary, ht, hg, hf, Bind.bind, Except.bind]
            refine ⟨?_, ?_, ?_, ?_⟩ <;> simp [hb, ht, hg, hf]
        | ok fc0 =>
            by_cases hnd : top0 = [] ∧ fc0 = 0
            · have hb : buildVideoSummary v = .noData := by
                simp [buildVideoSummary, ht, hg, hf, Bind.bind, Except.bind,
                  Pure.pure, Except.pure, hnd.1, hnd.2]
              obtain ⟨h1, h2⟩ := hnd
              subst h1; subst h2
              refine ⟨?_, ?_, ?_, ?_⟩ <;> simp [hb, ht, hg, hf]
            · have hb : buildVideoSummary v = .ok fc0 top0 := by
                simp only [buildVideoSummary, ht, if_true, hg, hf, Bind.bind,
                  Except.bind, Pure.pure, Except.pure]
                rw [if_neg hnd]
              refine ⟨?_, ?_, ?_, ?_⟩
              · simp [hb, ht]
              · simp only [hb]
                constructor
                · intro hcon; exact absurd hcon (by simp)
                · rintro ⟨-, hg1, hf1⟩
                  simp only [Except.ok.injEq] at hg1 hf1
                  exact absurd (And.intro hg1 hf1) hnd
              · intro fc1 top1 hok
                have h1 : (VideoSummary.ok fc0 top0) = .ok fc1 top1 := hb.symm.trans hok
                simp only [VideoSummary.ok.injEq] at h1
                obtain ⟨e1, e2⟩ := h1
                subst e1; subst e2
                exact ⟨ht, rfl, rfl, hnd⟩
              · intro e hcon
                have h1 : (VideoSummary.ok fc0 top0) = .err e := hb.symm.trans hcon
                exact absurd h1 (by simp)
  · have hb : buildVideoSummary v = .missing := by
      simp [buildVideoSummary, ht]
    have ht' : optTruthy v = false := by simpa using ht
    refine ⟨?_, ?_, ?_, ?_⟩ <;> simp [hb, ht']

section ConcreteEvaluationC4

attribute [local semireducible] Rat.add Rat.mul Rat.sub Rat.inv Rat.ofScientific

/-- C4, amended: with participant and timestamp supplied, each modality's
status is `missing` exactly when its input is Python-falsy (None or an empty
object — not only None, the correction forced by the counterexample);
`no_data` exactly when the input is truthy and parsing succeeds with an empty
transcript and no emotion scores (audio), or no scores and zero predicted
frames (video); `ok` only with the transcript and the top-emotions list
produced by the aggregation helpers, whose scores are the per-name averages
over all sub-predictions computed before ranking (then rounded); and `error`
only when one of those helpers raises. -/
theorem claim_C4_theorem (a v : Option JValue) (p t : String) (s : HumeSummary)
    (h : summarize_hume_batch a v (some p) (some t) = .ok s) :
    ((s.audio = .missing ↔ optTruthy a = false) ∧
     (s.audio = .noData ↔ optTruthy a = true ∧
        (∃ segs, extract_transcript_from_prosody (a.getD .null) = .ok ("", segs) ∧
          aggregate_emotions (a.getD .null) "prosody" 5 = .ok [])) ∧
     (∀ tr segs top, s.audio = .ok tr segs top →
        optTruthy a = true ∧
        extract_transcript_from_prosody (a.getD .null) = .ok (tr, segs) ∧
        aggregate_emotions (a.getD .null) "prosody" 5 = .ok top ∧
        ¬(tr = "" ∧ top = [])) ∧
     (∀ e, s.audio = .err e →
        optTruthy a = true ∧
        (extract_transcript_from_prosody (a.getD .null) = .error e ∨
         aggregate_emotions (a.getD .null) "prosody" 5 = .error e))) ∧
    ((s.video = .missing ↔ optTruthy v = false) ∧
     (s.video = .noData ↔ optTruthy v = true ∧
        aggregate_emotions (v.getD .null) "face" 5 = .ok [] ∧
        face_frame_count (v.getD .null) = .ok 0) ∧
     (∀ fc top, s.video = .ok fc top →
        optTruthy v = true ∧
        aggregate_emotions (v.getD .null) "face" 5 = .ok top ∧
        face_frame_count (v.getD .null) = .ok fc ∧
        ¬(top = [] ∧ fc = 0)) ∧
     (∀ e, s.video = .err e →
        optTruthy v = true ∧
        (aggregate_emotions (v.getD .null) "face" 5 = .error e ∨
         face_frame_count (v.getD .null) = .error e))) := by
  have hs : s = HumeSummary.mk (pkeyOf (some p)) (buildAudioSummary a)
      (buildVideoSummary v) t := by
    have hg := summarize_given a v p t
    rw [hg] at h
    exact (Except.ok.injEq _ _).mp h.symm |>.symm ▸ rfl
  subst hs
  exact ⟨buildAudioSummary_char a, buildVideoSummary_char v⟩

/-- C4, witness for the amended theorem: the empty-object audio input is
falsy, and the theorem's first component confirms its record is `missing`. -/
theorem claim_C4_theorem_witness :
    (HumeSummary.mk "P" AudioSummary.missing VideoSummary.missing "T").audio =
        AudioSummary.missing ↔
      optTruthy (some (JValue.obj [])) = false :=
  (claim_C4_theorem (some (JValue.obj [])) none "P" "T"
    (HumeSummary.mk "P" AudioSummary.missing VideoSummary.missing "T") (by rfl)).1.1

end ConcreteEvaluationC4

/-! ## Claims C5, C6, C7 — context manager and change detection -/

theorem lookup_trim_emotion (now : ℚ) (w : List (String × List EmotionEntry)) (sp : String) :
    (trim_emotion_window now w).lookup sp =
      (w.lookup sp).map
        (fun es => es.filter (fun e => decide (e.addedAt.getD 0 > now - WINDOW_SIZE_SECONDS))) := by
  induction w with
  | nil => rfl
  | cons kv rest ih =>
      obtain ⟨k, es⟩ := kv
      simp only [trim_emotion_window, List.map_cons, List.lookup]
      cases h : sp == k <;> simp_all [trim_emotion_window]

/-- C5.  The operation `prepare_coaching_context` returns a conversation
history equal, for every context state, to the spec-side reading (the last
five prior summaries' `[phase] text`, oldest first, arrow-joined, and
`[Meeting just started]` when no prior summaries exist); it returns
`coaching_ready = false` when no summary exists at all, and otherwise the
latest `WindowSummary`'s `coaching_ready` flag (defaulted to false when the
field is absent). -/
theorem claim_C5_theorem (ctx : SessionContext) :
    (prepare_coaching_context ctx).conversation_history =
      spec_conversation_history ctx.summaries ∧
    (ctx.summaries = [] → (prepare_coaching_context ctx).coaching_ready = false) ∧
    (∀ w, ctx.summaries.getLast? = some w →
      (prepare_coaching_context ctx).coaching_ready = w.coaching_ready.getD false) := by
  refine ⟨?_, ?_, ?_⟩
  · unfold prepare_coaching_context spec_conversation_history create_cumulative_summary
    by_cases h : ctx.summaries = []
    · simp [h]
    · have hne : ctx.summaries.isEmpty = false := by
        simpa [List.isEmpty_iff] using h
      by_cases h2 : ctx.summaries.dropLast = []
      · simp [hne, h2]
      · have hne2 : ctx.summaries.dropLast.isEmpty = false := by
          simpa [List.isEmpty_iff] using h2
        simp [hne, h2, hne2]
  · intro h
    simp [prepare_coaching_context, h]
  · intro w hw
    simp [prepare_coaching_context, hw]

/-- C5, witness at a context with two summaries, the latest coaching-ready. -/
theorem claim_C5_theorem_witness :
    (prepare_coaching_context c5_example_context).coaching_ready = true ∧
    (prepare_coaching_context c5_example_context).conversation_history = "[Pitch] intro" := by
  constructor
  · exact ((claim_C5_theorem c5_example_context).2.2 c5_latest_summary (by rfl)).trans (by rfl)
  · exact ((claim_C5_theorem c5_example_context).1).trans (by rfl)

/-- C6, amended: the trim keeps exactly the entries strictly younger than the
retention horizon — an entry aged exactly 120 s is also removed (the
counterexample's correction to "older than"); the membership characterization
holds for any window contents and insertion order, the mutation path
`add_transcript_entry` trims, and `process_context_updates` trims both windows
on every call. -/
theorem claim_C6_theorem :
    (∀ (now : ℚ) (w : List TranscriptEntry) (e : TranscriptEntry),
      e ∈ trim_transcript_window now w ↔
        e ∈ w ∧ e.addedAt.getD 0 > now - WINDOW_SIZE_SECONDS) ∧
    (∀ (now : ℚ) (w : List (String × List EmotionEntry)) (sp : String) (x : EmotionEntry),
      x ∈ ((trim_emotion_window now w).lookup sp).getD [] ↔
        x ∈ ((w.lookup sp).getD []) ∧ x.addedAt.getD 0 > now - WINDOW_SIZE_SECONDS) ∧
    (∀ (ctx : SessionContext) (now : ℚ) (e : TranscriptEntry),
      (add_transcript_entry ctx now e).transcript_window =
        trim_transcript_window now
          (ctx.transcript_window ++ [{ e with addedAt := some now }])) ∧
    (∀ (ctx : SessionContext) (now : ℚ) (oracle : Option WindowSummary),
      (process_context_updates ctx now oracle).1.transcript_window =
        trim_transcript_window now ctx.transcript_window ∧
      (process_context_updates ctx now oracle).1.emotion_window =
        trim_emotion_window now ctx.emotion_window) := by
  refine ⟨?_, ?_, ?_, ?_⟩
  · intro now w e
    simp [trim_transcript_window, List.mem_filter]
  · intro now w sp x
    rw [lookup_trim_emotion]
    cases h : w.lookup sp with
    | none => simp
    | some es => simp [List.mem_filter]
  · intro ctx now e
    rfl
  · intro ctx now oracle
    have hcs : ∀ (c : SessionContext) (o : Option WindowSummary),
        (create_summary c now o).1.transcript_window = c.transcript_window ∧
        (create_summary c now o).1.emotion_window = c.emotion_window := by
      intro c o
      unfold create_summary
      split
      · exact ⟨rfl, rfl⟩
      · cases o with
        | none => exact ⟨rfl, rfl⟩
        | some w => exact ⟨rfl, rfl⟩
    unfold process_context_updates
    split
    · split
      · rename_i ctx2 summ heq
        have h2 := hcs (trimmed_context ctx now) oracle
        rw [heq] at h2
        split
        · exact h2
        · exact h2
      · rename_i ctx2 heq
        have h2 := hcs (trimmed_context ctx now) oracle
        rw [heq] at h2
        exact h2
    · exact ⟨rfl, rfl⟩

theorem modalityChanged_iff (ol nl : List StoredEmotion) (th : ℚ) :
    modalityChanged ol nl th = true ↔
      ol ≠ [] ∧ nl ≠ [] ∧
        ((ol.headD (StoredEmotion.mk none none)).name ≠
            (nl.headD (StoredEmotion.mk none none)).name ∨
         |(ol.headD (StoredEmotion.mk none none)).score.getD 0 -
            (nl.headD (StoredEmotion.mk none none)).score.getD 0| > th) := by
  unfold modalityChanged
  by_cases h1 : !ol.isEmpty && !nl.isEmpty
  · have h1c := h1
    rw [Bool.and_eq_true] at h1c
    have hol : ol ≠ [] := by
      simpa [List.isEmpty_iff] using h1c.1
    have hnl : nl ≠ [] := by
      simpa [List.isEmpty_iff] using h1c.2
    rw [if_pos h1]
    by_cases h2 : (ol.headD (StoredEmotion.mk none none)).name ≠
        (nl.headD (StoredEmotion.mk none none)).name
    · simp [h2, hol, hnl]
    · simp [h2, hol, hnl]
  · rw [if_neg h1]
    have : ol = [] ∨ nl = [] := by
      by_cases ho : ol = []
      · exact Or.inl ho
      · refine Or.inr ?_
        by_cases hn : nl = []
        · exact hn
        · exact absurd (by
            have ho' : ol.isEmpty = false := by simpa [List.isEmpty_iff] using ho
            have hn' : nl.isEmpty = false := by simpa [List.isEmpty_iff] using hn
            simp [ho', hn'] : (!ol.isEmpty && !nl.isEmpty) = true) h1
    rcases this with h | h <;> simp [h]

section ConcreteEvaluationCtx

attribute [local semireducible] Rat.add Rat.mul Rat.sub Rat.inv Rat.ofScientific

/-- C6, counterexample.  An entry whose stamped age is exactly the 120-second
horizon is not older than the horizon, yet the trim removes it (the kept
condition is strict `>` on `_added_at`): "removes all and only the entries
older than the horizon" fails at the boundary. -/
theorem claim_C6_counterexample :
    trim_transcript_window 120 [TranscriptEntry.mk "t" "s" "hello" (some 0)] = [] ∧
    ¬ ((120 : ℚ) - (TranscriptEntry.mk "t" "s" "hello" (some 0)).addedAt.getD 0 >
        WINDOW_SIZE_SECONDS) := by
  constructor
  · rfl
  · decide

/-- C7.  `has_emotion_changed` returns true exactly when no previous state
exists, or — in a modality where both the stored and the new top lists are
non-empty — the top names differ or the top scores differ by strictly more
than the 0.10 threshold; in particular, same name with scores 0.50 versus
0.53 yields false and 0.50 versus 0.65 yields true. -/
theorem claim_C7_theorem :
    (∀ (old : Option OldEmotionState) (new : NewEmotions),
      has_emotion_changed old new (1/10) = true ↔
        (old = none ∨
         ∃ o, old = some o ∧
           ((o.audio_emotions ≠ [] ∧ new.audioTop ≠ [] ∧
             ((o.audio_emotions.headD (StoredEmotion.mk none none)).name ≠
                (new.audioTop.headD (StoredEmotion.mk none none)).name ∨
              |(o.audio_emotions.headD (StoredEmotion.mk none none)).score.getD 0 -
                (new.audioTop.headD (StoredEmotion.mk none none)).score.getD 0| > 1/10)) ∨
            (o.video_emotions ≠ [] ∧ new.videoTop ≠ [] ∧
             ((o.video_emotions.headD (StoredEmotion.mk none none)).name ≠
                (new.videoTop.headD (StoredEmotion.mk none none)).name ∨
              |(o.video_emotions.headD (StoredEmotion.mk none none)).score.getD 0 -
                (new.videoTop.headD (StoredEmotion.mk none none)).score.getD 0| > 1/10))))) ∧
    has_emotion_changed
      (some (OldEmotionState.mk [StoredEmotion.mk (some "Joy") (some (50/100))] []))
      (NewEmotions.mk [StoredEmotion.mk (some "Joy") (some (53/100))] []) (1/10) = false ∧
    has_emotion_changed
      (some (OldEmotionState.mk [StoredEmotion.mk (some "Joy") (some (50/100))] []))
      (NewEmotions.mk [StoredEmotion.mk (some "Joy") (some (65/100))] []) (1/10) = true := by
  refine ⟨?_, by decide, by decide⟩
  intro old new
  cases old with
  | none => simp [has_emotion_changed]
  | some o =>
      simp only [has_emotion_changed, Bool.or_eq_true, modalityChanged_iff]
      constructor
      · intro h
        exact Or.inr ⟨o, rfl, h⟩
      · rintro (hcon | ⟨o', ho, h⟩)
        · exact absurd hcon (by simp)
        · injection ho with ho2
          subst ho2
          exact h

/-- C9.  The advisory generator is gated on the freshly created
`WindowSummary`: whenever the caller's gate fires, the summarizer succeeded
this round, the summary it produced is the latest one in the context, and its
`coaching_ready` flag is true; a failed summarization (oracle `none`) or an
empty summary history never fires the gate. -/
theorem claim_C9_theorem (ctx : SessionContext) (now : ℚ) (oracle : Option WindowSummary) :
    (coachInvoked (process_context_updates ctx now oracle).2 = true →
      ∃ w, oracle = some w ∧
        (process_context_updates ctx now oracle).1.summaries.getLast? = some w ∧
        w.coaching_ready.getD false = true) ∧
    (oracle = none → coachInvoked (process_context_updates ctx now oracle).2 = false) ∧
    ((process_context_updates ctx now oracle).1.summaries = [] →
      coachInvoked (process_context_updates ctx now oracle).2 = false) := by
  unfold process_context_updates
  split
  · split
    · rename_i ctx2 summ heq
      have hfacts : oracle = some summ ∧
          ctx2.summaries = (trimmed_context ctx now).summaries ++ [summ] := by
        unfold create_summary at heq
        split at heq
        · simp at heq
        · cases oracle with
          | none => simp at heq
          | some w =>
              simp only [Prod.mk.injEq] at heq
              obtain ⟨h1, h2⟩ := heq
              injection h2 with h2a
              subst h2a
              exact ⟨rfl, by rw [← h1]⟩
      obtain ⟨ho, hsum⟩ := hfacts
      split
      · rename_i hflag
        refine ⟨?_, ?_, ?_⟩
        · intro _
          exact ⟨summ, ho, by simp [hsum, List.getLast?_concat], hflag⟩
        · intro hnone
          rw [ho] at hnone
          exact absurd hnone (by simp)
        · intro hempty
          simp only [hsum] at hempty
          exact absurd hempty (by simp)
      · refine ⟨?_, ?_, ?_⟩
        · intro hinv
          exact absurd hinv (by simp [coachInvoked])
        · intro _
          rfl
        · intro _
          rfl
    · rename_i ctx2 heq
      refine ⟨?_, ?_, ?_⟩
      · intro hinv
        exact absurd hinv (by simp [coachInvoked])
      · intro _
        rfl
      · intro _
        rfl
  · refine ⟨?_, ?_, ?_⟩
    · intro hinv
      exact absurd hinv (by simp [coachInvoked])
    · intro _
      rfl
    · intro _
      rfl

/-- C9, witness: a due, non-empty window with a coaching-ready oracle result
fires the gate, and the conclusion identifies that summary as the latest. -/
theorem claim_C9_theorem_witness :
    ∃ w, (some c9_example_summary : Option WindowSummary) = some w ∧
      (process_context_updates c9_example_context 30
        (some c9_example_summary)).1.summaries.getLast? = some w ∧
      w.coaching_ready.getD false = true :=
  (claim_C9_theorem c9_example_context 30 (some c9_example_summary)).1 (by rfl)

/-- C10.  Every clip flush resets `last_audio_ts` to `None` besides clearing
the frame and audio buffers, so the next audio chunk in the new window is
appended as one chunk piece with no silence padding, whatever its relative
timestamp and whatever timestamp the previous window last saw. -/
theorem claim_C10_theorem (s : PState) (now st lc : ℚ)
    (h1 : s.start_time = some st) (h2 : s.last_clip_time = some lc)
    (h3 : now - lc ≥ CLIP_LEN) :
    (check_and_create_clips s now).1.last_audio_ts = none ∧
    (check_and_create_clips s now).1.audio_buffer = [] ∧
    (check_and_create_clips s now).1.frames = [] ∧
    (∀ (t : ℚ) (n : ℕ),
      (handle_audio_chunk (check_and_create_clips s now).1 t n).audio_buffer =
        [AudioPiece.chunk (check_and_create_clips s now).1.nextId n]) := by
  have hres : (check_and_create_clips s now).1 =
      { s with frames := [], audio_buffer := [], last_clip_time := some now,
               last_audio_ts := none } := by
    unfold check_and_create_clips
    rw [h1]
    simp only [h2, Option.getD_some]
    rw [if_pos h3]
  refine ⟨by rw [hres], by rw [hres], by rw [hres], ?_⟩
  intro t n
  rw [hres]
  rfl

/-- C10, witness at a mid-session state flushed at time 6. -/
theorem claim_C10_theorem_witness :
    (check_and_create_clips c10_example_state 6).1.last_audio_ts = none ∧
    (check_and_create_clips c10_example_state 6).1.audio_buffer = [] ∧
    (check_and_create_clips c10_example_state 6).1.frames = [] ∧
    (∀ (t : ℚ) (n : ℕ),
      (handle_audio_chunk (check_and_create_clips c10_example_state 6).1 t n).audio_buffer =
        [AudioPiece.chunk (check_and_create_clips c10_example_state 6).1.nextId n]) :=
  claim_C10_theorem c10_example_state 6 0 0 (by rfl) (by rfl) (by decide)

end ConcreteEvaluationCtx

/-! ## Claim C1 — gap-fill arithmetic -/

theorem pyInt_eq_floor {q : ℚ} (h : 0 ≤ q) : pyInt q = ⌊q⌋ := by
  unfold pyInt
  rw [if_pos h]

theorem audio_chunk_step_no_overlap (B : ℕ) (prev t : ℚ) (n : ℕ)
    (hlt : prev < t) (hno : (n : ℤ) ≤ pyInt ((t - prev) * (AUDIO_RATE : ℚ))) :
    audio_chunk_step (AudioBufState.mk B (some prev)) t n =
      AudioBufState.mk (B + (pyInt ((t - prev) * (AUDIO_RATE : ℚ))).toNat) (some t) := by
  have hpos : (0 : ℚ) ≤ (t - prev) * (AUDIO_RATE : ℚ) := by
    have : (0 : ℚ) ≤ t - prev := by linarith
    positivity
  have hfl : 0 ≤ pyInt ((t - prev) * (AUDIO_RATE : ℚ)) := by
    rw [pyInt_eq_floor hpos]
    exact Int.floor_nonneg.mpr hpos
  unfold audio_chunk_step
  simp only [AudioBufState.mk.injEq, and_true]
  split
  · rename_i hgap
    omega
  · rename_i hgap
    omega

theorem ingest_from_bounds (rest : List (ℚ × ℕ)) :
    ∀ (prev : ℚ) (B : ℕ),
      timesIncreasingFrom prev rest = true →
      noOverlapFrom prev rest = true →
      (rest.foldl (fun s c => audio_chunk_step s c.1 c.2)
          (AudioBufState.mk B (some prev))).last_audio_ts =
        some (lastChunkTs prev rest) ∧
      ((rest.foldl (fun s c => audio_chunk_step s c.1 c.2)
          (AudioBufState.mk B (some prev))).bufferSamples : ℚ) ≤
        B + (lastChunkTs prev rest - prev) * (AUDIO_RATE : ℚ) ∧
      (B : ℚ) + (lastChunkTs prev rest - prev) * (AUDIO_RATE : ℚ) - rest.length ≤
        (rest.foldl (fun s c => audio_chunk_step s c.1 c.2)
          (AudioBufState.mk B (some prev))).bufferSamples := by
  induction rest with
  | nil =>
      intro prev B _ _
      refine ⟨rfl, ?_, ?_⟩ <;> simp [lastChunkTs]
  | cons c rest ih =>
      obtain ⟨t, n⟩ := c
      intro prev B hinc hno
      rw [timesIncreasingFrom, Bool.and_eq_true] at hinc
      rw [noOverlapFrom, Bool.and_eq_true] at hno
      obtain ⟨hlt, hinc'⟩ := hinc
      obtain ⟨hle, hno'⟩ := hno
      have hlt' : prev < t := by simpa using hlt
      have hle' : (n : ℤ) ≤ pyInt ((t - prev) * (AUDIO_RATE : ℚ)) := by simpa using hle
      have hlast : lastChunkTs prev ((t, n) :: rest) = lastChunkTs t rest := by
        unfold lastChunkTs
        rw [List.map_cons, List.getLastD_cons]
      rw [List.foldl_cons, audio_chunk_step_no_overlap B prev t n hlt' hle']
      rcases ih t (B + (pyInt ((t - prev) * (AUDIO_RATE : ℚ))).toNat) hinc' hno' with
        ⟨hts, hub, hlb⟩
      have hpos : (0 : ℚ) ≤ (t - prev) * (AUDIO_RATE : ℚ) := by
        have : (0 : ℚ) ≤ t - prev := by linarith
        positivity
      have hflq : ((pyInt ((t - prev) * (AUDIO_RATE : ℚ))).toNat : ℚ) =
          ((⌊(t - prev) * (AUDIO_RATE : ℚ)⌋ : ℤ) : ℚ) := by
        rw [pyInt_eq_floor hpos]
        exact_mod_cast congrArg Int.cast
          (Int.toNat_of_nonneg (Int.floor_nonneg.mpr hpos))
      have hup : ((⌊(t - prev) * (AUDIO_RATE : ℚ)⌋ : ℤ) : ℚ) ≤
          (t - prev) * (AUDIO_RATE : ℚ) := Int.floor_le _
      have hdown : (t - prev) * (AUDIO_RATE : ℚ) - 1 <
          ((⌊(t - prev) * (AUDIO_RATE : ℚ)⌋ : ℤ) : ℚ) := Int.sub_one_lt_floor _
      refine ⟨?_, ?_, ?_⟩
      · rw [hts, hlast]
      · rw [hlast]
        push_cast at hub ⊢
        rw [hflq] at hub
        linarith
      · rw [hlast]
        simp only [List.length_cons]
        push_cast at hlb ⊢
        rw [hflq] at hlb
        linarith

section ConcreteEvaluationC1

attribute [local semireducible] Rat.add Rat.mul Rat.sub Rat.inv Rat.ofScientific

/-- C1, counterexample, two concrete runs refuting the stated formula.
Run 1: four equal 16000-sample chunks with strictly increasing timestamps
0, 0.5, 1, 1.5 — each over-delivers relative to elapsed time, nothing is ever
trimmed, and the buffer reaches 64000 samples where the claim's formula gives
(1.5 − 0)·16000 + 16000 = 40000: off by 24000 samples, more than a whole chunk
plus any rounding.  Run 2 (no over-delivery, distinct sizes): chunks
(0 s, 16000) and (2 s, 100) give a 48000-sample buffer; the claim's
last-chunk formula gives 32100 (off by 15900), while the first-chunk formula
(2 − 0)·16000 + 16000 matches exactly. -/
theorem claim_C1_counterexample :
    (timesIncreasingFrom (0 : ℚ) [((1 : ℚ)/2, 16000), (1, 16000), (3/2, 16000)] = true ∧
     (ingest_audio [((0 : ℚ), 16000), (1/2, 16000), (1, 16000),
        (3/2, 16000)]).bufferSamples = 64000 ∧
     ((3/2 : ℚ) - 0) * (AUDIO_RATE : ℚ) + 16000 = 40000 ∧
     (64000 : ℚ) - 40000 = 24000 ∧ (16000 : ℚ) + 4 < 24000) ∧
    (timesIncreasingFrom (0 : ℚ) [((2 : ℚ), 100)] = true ∧
     noOverlapFrom (0 : ℚ) [((2 : ℚ), 100)] = true ∧
     (ingest_audio [((0 : ℚ), 16000), (2, 100)]).bufferSamples = 48000 ∧
     ((2 : ℚ) - 0) * (AUDIO_RATE : ℚ) + 100 = 32100 ∧
     ((2 : ℚ) - 0) * (AUDIO_RATE : ℚ) + 16000 = 48000) := by
  refine ⟨⟨by decide, by decide, by decide, by decide, by decide⟩,
    ⟨by decide, by decide, by decide, by decide, by decide⟩⟩

/-- C1, amended: for strictly increasing timestamps where no chunk
over-delivers (each chunk's samples are at most the elapsed-time-implied
expected count), the final buffer length equals
(last_timestamp − first_timestamp) × sample_rate + samples_in_FIRST_chunk,
within one sample of `int()` truncation per later chunk (not one chunk
total); the first chunk for a speaker is appended without any padding. -/
theorem claim_C1_theorem (t0 : ℚ) (n0 : ℕ) (rest : List (ℚ × ℕ))
    (hinc : timesIncreasingFrom t0 rest = true)
    (hno : noOverlapFrom t0 rest = true) :
    audio_chunk_step (AudioBufState.mk 0 none) t0 n0 = AudioBufState.mk n0 (some t0) ∧
    ((ingest_audio ((t0, n0) :: rest)).bufferSamples : ℚ) ≤
      (lastChunkTs t0 rest - t0) * (AUDIO_RATE : ℚ) + n0 ∧
    (lastChunkTs t0 rest - t0) * (AUDIO_RATE : ℚ) + n0 - rest.length ≤
      (ingest_audio ((t0, n0) :: rest)).bufferSamples := by
  have hfirst : audio_chunk_step (AudioBufState.mk 0 none) t0 n0 =
      AudioBufState.mk n0 (some t0) := by
    simp [audio_chunk_step]
  refine ⟨hfirst, ?_, ?_⟩ <;>
  · show _
    unfold ingest_audio
    rw [List.foldl_cons]
    rw [show audio_chunk_step (AudioBufState.mk 0 none) t0 n0 =
      AudioBufState.mk n0 (some t0) from hfirst]
    rcases ingest_from_bounds rest t0 n0 hinc hno with ⟨-, hub, hlb⟩
    first
      | (push_cast at hub ⊢; linarith)
      | (push_cast at hlb ⊢; linarith)

/-- C1, witness at three contiguous one-second 16000-sample chunks. -/
theorem claim_C1_theorem_witness :
    (audio_chunk_step (AudioBufState.mk 0 none) 0 16000 =
      AudioBufState.mk 16000 (some 0) ∧
    ((ingest_audio (((0 : ℚ), 16000) :: [((1 : ℚ), 16000), (2, 16000)])).bufferSamples : ℚ) ≤
      (lastChunkTs 0 [((1 : ℚ), 16000), (2, 16000)] - 0) * (AUDIO_RATE : ℚ) + 16000 ∧
    (lastChunkTs 0 [((1 : ℚ), 16000), (2, 16000)] - 0) * (AUDIO_RATE : ℚ) + 16000 -
        ([((1 : ℚ), 16000), (2, 16000)] : List (ℚ × ℕ)).length ≤
      (ingest_audio (((0 : ℚ), 16000) :: [((1 : ℚ), 16000), (2, 16000)])).bufferSamples) :=
  claim_C1_theorem 0 16000 [((1 : ℚ), 16000), (2, 16000)] (by decide) (by decide)

end ConcreteEvaluationC1

/-! ## Claim C8 — disjoint flush windows -/

theorem mem_clipIds (c : Clip) (y : ℕ) :
    y ∈ clipIds c ↔
      ((∃ t, (y, t) ∈ c.clipFrames) ∨ ∃ n, AudioPiece.chunk y n ∈ c.clipAudio) := by
  unfold clipIds
  rw [List.mem_append]
  constructor
  · rintro (hf | ha)
    · rcases List.mem_map.mp hf with ⟨⟨y', t⟩, hmem, heq⟩
      exact Or.inl ⟨t, by simpa [← heq] using hmem⟩
    · rcases List.mem_filterMap.mp ha with ⟨p, hmem, hp⟩
      cases p with
      | silence g => simp at hp
      | chunk i m =>
          simp only [Option.some.injEq] at hp
          exact Or.inr ⟨m, by simpa [hp] using hmem⟩
  · rintro (⟨t, hf⟩ | ⟨n, ha⟩)
    · exact Or.inl (List.mem_map.mpr ⟨(y, t), hf, rfl⟩)
    · exact Or.inr (List.mem_filterMap.mpr ⟨AudioPiece.chunk y n, ha, rfl⟩)

theorem chunk_mem_handle_audio (s : PState) (rel : ℚ) (n i m : ℕ)
    (h : AudioPiece.chunk i m ∈ (handle_audio_chunk s rel n).audio_buffer) :
    AudioPiece.chunk i m ∈ s.audio_buffer ∨ i = s.nextId := by
  unfold handle_audio_chunk at h
  simp only [List.append_assoc, List.mem_append, List.mem_singleton] at h
  rcases h with h | h | h
  · exact Or.inl h
  · exfalso
    cases hts : s.last_audio_ts with
    | none => rw [hts] at h; simp at h
    | some last =>
        rw [hts] at h
        by_cases hgap : (0 : ℤ) < pyInt ((rel - last) * (AUDIO_RATE : ℚ)) - (n : ℤ)
        · simp only [if_pos hgap] at h
          simp at h
        · simp only [if_neg hgap] at h
          simp at h
  · injection h with h1 h2
    exact Or.inr h1

theorem runEvents_clip_chain (events : List PEvent) :
    ∀ (s : PState) (clips : List Clip) (b : ℕ),
      b ≤ s.nextId →
      (∀ x ∈ s.frames, b ≤ x.1 ∧ x.1 < s.nextId) →
      (∀ i n, AudioPiece.chunk i n ∈ s.audio_buffer → b ≤ i ∧ i < s.nextId) →
      (∀ c ∈ clips, ∀ y ∈ clipIds c, y < b) →
      List.Pairwise (fun c c' => ∀ y ∈ clipIds c, ∀ z ∈ clipIds c', y < z) clips →
      List.Pairwise (fun c c' => ∀ y ∈ clipIds c, ∀ z ∈ clipIds c', y < z)
        (events.foldl (fun acc e =>
          ((pstep acc.1 e).1, acc.2 ++ (pstep acc.1 e).2.toList)) (s, clips)).2 := by
  induction events with
  | nil =>
      intro s clips b _ _ _ _ hpw
      simpa using hpw
  | cons e es ih =>
      intro s clips b hb hframes haudio hbelow hpw
      rw [List.foldl_cons]
      cases e with
      | videoFrame t =>
          simp only [pstep, Option.toList_none, List.append_nil]
          refine ih _ _ b ?_ ?_ ?_ hbelow hpw
          · simp only [handle_video_frame]
            omega
          · intro x hx
            simp only [handle_video_frame, List.mem_append, List.mem_singleton] at hx
            rcases hx with hx | hx
            · rcases hframes x hx with ⟨h1, h2⟩
              simp only [handle_video_frame]
              exact ⟨h1, by omega⟩
            · subst hx
              simp only [handle_video_frame]
              exact ⟨hb, by omega⟩
          · intro i m hmem
            simp only [handle_video_frame] at hmem
            rcases haudio i m hmem with ⟨h1, h2⟩
            simp only [handle_video_frame]
            exact ⟨h1, by omega⟩
      | audioChunk rel n =>
          simp only [pstep, Option.toList_none, List.append_nil]
          refine ih _ _ b ?_ ?_ ?_ hbelow hpw
          · simp only [handle_audio_chunk]
            omega
          · intro x hx
            simp only [handle_audio_chunk] at hx
            rcases hframes x hx with ⟨h1, h2⟩
            simp only [handle_audio_chunk]
            exact ⟨h1, by omega⟩
          · intro i m hmem
            rcases chunk_mem_handle_audio s rel n i m hmem with hold | hnew
            · rcases haudio i m hold with ⟨h1, h2⟩
              simp only [handle_audio_chunk]
              exact ⟨h1, by omega⟩
            · subst hnew
              simp only [handle_audio_chunk]
              exact ⟨hb, by omega⟩
      | timerTick now =>
          simp only [pstep]
          cases hst : s.start_time with
          | none =>
              simp only [check_and_create_clips, hst, Option.toList_none, List.append_nil]
              refine ih _ _ b hb ?_ ?_ hbelow hpw
              · intro x hx
                exact hframes x hx
              · intro i m hmem
                exact haudio i m hmem
          | some st =>
              simp only [check_and_create_clips, hst]
              by_cases hcond : now - s.last_clip_time.getD now ≥ CLIP_LEN
              · rw [if_pos hcond]
                by_cases hq : (s.frames.filter
                    (fun ft => decide (s.last_clip_time.getD now ≤ ft.2 ∧ ft.2 ≤ now))).isEmpty
                    && s.audio_buffer.isEmpty
                · rw [if_pos hq]
                  simp only [Option.toList_none, List.append_nil]
                  refine ih _ _ s.nextId le_rfl ?_ ?_ ?_ hpw
                  · intro x hx
                    simp at hx
                  · intro i m hmem
                    simp at hmem
                  · intro c hc y hy
                    exact lt_of_lt_of_le (hbelow c hc y hy) hb
                · rw [if_neg hq]
                  simp only [Option.toList_some]
                  have hc0 : ∀ y ∈ clipIds (Clip.mk
                      (s.frames.filter
                        (fun ft => decide (s.last_clip_time.getD now ≤ ft.2 ∧ ft.2 ≤ now)))
                      s.audio_buffer), b ≤ y ∧ y < s.nextId := by
                    intro y hy
                    rcases (mem_clipIds _ y).mp hy with ⟨t, hf⟩ | ⟨m, ha⟩
                    · exact hframes (y, t) (List.mem_filter.mp hf).1
                    · exact haudio y m ha
                  refine ih _ _ s.nextId le_rfl ?_ ?_ ?_ ?_
                  · intro x hx
                    simp at hx
                  · intro i m hmem
                    simp at hmem
                  · intro c hc y hy
                    rcases List.mem_append.mp hc with hc | hc
                    · exact lt_of_lt_of_le (hbelow c hc y hy) hb
                    · rcases List.mem_singleton.mp hc with rfl
                      exact (hc0 y hy).2
                  · refine List.pairwise_append.mpr ⟨hpw, by simp, ?_⟩
                    intro c hc c0 hc0mem
                    rcases List.mem_singleton.mp hc0mem with rfl
                    intro y hy z hz
                    exact lt_of_lt_of_le (hbelow c hc y hy) (hc0 z hz).1
              · rw [if_neg hcond]
                simp only [Option.toList_none, List.append_nil]
                exact ih _ _ b hb hframes haudio hbelow hpw

/-- C8.  Distinct clips emitted for one participant never share a delivered
frame or a delivered audio chunk: flushing snapshots the buffers and clears
them atomically, so window k's snapshot cannot re-include anything delivered
in window k−1 (silence padding carries no delivered bytes and is not
tracked). -/
theorem claim_C8_theorem (events : List PEvent) (i j : ℕ) (hij : i < j)
    (ci cj : Clip) (hi : (runEvents events).2[i]? = some ci)
    (hj : (runEvents events).2[j]? = some cj) :
    (∀ y, y ∈ clipIds ci → y ∉ clipIds cj) ∧
    (∀ fr, fr ∈ ci.clipFrames → fr ∉ cj.clipFrames) ∧
    (∀ idc n m, AudioPiece.chunk idc n ∈ ci.clipAudio →
      AudioPiece.chunk idc m ∉ cj.clipAudio) := by
  have hpw : List.Pairwise (fun c c' => ∀ y ∈ clipIds c, ∀ z ∈ clipIds c', y < z)
      (runEvents events).2 := by
    have h := runEvents_clip_chain events initPState [] 0 (by simp [initPState])
      (by intro x hx; simp [initPState] at hx)
      (by intro a b hmem; simp [initPState] at hmem)
      (by intro c hc; simp at hc)
      (by simp)
    exact h
  rcases List.getElem?_eq_some_iff.mp hi with ⟨hilen, hieq⟩
  rcases List.getElem?_eq_some_iff.mp hj with ⟨hjlen, hjeq⟩
  have hrel := List.pairwise_iff_getElem.mp hpw i j hilen hjlen hij
  rw [hieq, hjeq] at hrel
  refine ⟨?_, ?_, ?_⟩
  · intro y hy hz
    exact absurd (hrel y hy y hz) (lt_irrefl y)
  · intro fr hf hf'
    have hy : fr.1 ∈ clipIds ci :=
      (mem_clipIds ci fr.1).mpr (Or.inl ⟨fr.2, by simpa using hf⟩)
    have hz : fr.1 ∈ clipIds cj :=
      (mem_clipIds cj fr.1).mpr (Or.inl ⟨fr.2, by simpa using hf'⟩)
    exact absurd (hrel fr.1 hy fr.1 hz) (lt_irrefl fr.1)
  · intro idc n m ha ha'
    have hy : idc ∈ clipIds ci := (mem_clipIds ci idc).mpr (Or.inr ⟨n, ha⟩)
    have hz : idc ∈ clipIds cj := (mem_clipIds cj idc).mpr (Or.inr ⟨m, ha'⟩)
    exact absurd (hrel idc hy idc hz) (lt_irrefl idc)

section ConcreteEvaluationC8

attribute [local semireducible] Rat.add Rat.mul Rat.sub Rat.inv Rat.ofScientific

/-- C8, witness: the two clips flushed by `c8_example_events` share no frame
and no audio chunk. -/
theorem claim_C8_theorem_witness :
    (∀ y, y ∈ clipIds (Clip.mk [(0, 1)] [AudioPiece.chunk 1 160]) →
      y ∉ clipIds (Clip.mk [(2, 7)] [AudioPiece.chunk 3 160])) ∧
    (∀ fr, fr ∈ (Clip.mk [((0 : ℕ), (1 : ℚ))] [AudioPiece.chunk 1 160]).clipFrames →
      fr ∉ (Clip.mk [((2 : ℕ), (7 : ℚ))] [AudioPiece.chunk 3 160]).clipFrames) ∧
    (∀ idc n m, AudioPiece.chunk idc n ∈
        (Clip.mk [((0 : ℕ), (1 : ℚ))] [AudioPiece.chunk 1 160]).clipAudio →
      AudioPiece.chunk idc m ∉
        (Clip.mk [((2 : ℕ), (7 : ℚ))] [AudioPiece.chunk 3 160]).clipAudio) :=
  claim_C8_theorem c8_example_events 0 1 (by decide)
    (Clip.mk [(0, 1)] [AudioPiece.chunk 1 160])
    (Clip.mk [(2, 7)] [AudioPiece.chunk 3 160]) (by rfl) (by rfl)

end ConcreteEvaluationC8

end EmoInsight
